import Mathlib

/-!
Shallow embedding of the Portfolio Analytics Engine
(`src/portfolioAnalysis.py`, class `PortfolioAnalyzer`) and proofs of the
specification claims about it.

Modelling conventions:
* A dataframe cell is `Cell`: missing (`na`, pandas NaN/NaT/None), a text
  value (`str`), a numeric value (`num`, exact rationals standing in for
  the source's floats), or a calendar date (`date`, a day number; string
  date parsing is the cleaning collaborator's concern, an unparseable
  date is `na`, mirroring `errors="coerce"`).
* A dataframe is a column-name list plus row-major cells; lookup by label
  returns the first matching column's cell, `na` when absent.  Duplicate
  column labels are outside the model (pandas duplicate-label frames are
  pathological and unused here).
* Division by zero in ℚ yields 0 where the source would produce NaN/inf;
  every claim about percentages carries a nonzero-total hypothesis.
* `pd.Timestamp.today()` is an explicit `today : ℤ` day-number parameter.
-/

set_option linter.unusedVariables false

namespace PortfolioSpec

attribute [local semireducible] Rat.add Rat.mul Rat.inv Rat.sub

/-- A dataframe cell: missing, text, numeric, or a date (day number). -/
inductive Cell where
  | na : Cell
  | str (s : String) : Cell
  | num (q : ℚ) : Cell
  | date (d : ℤ) : Cell
deriving DecidableEq, Repr

/-- Test for a missing value, `pd.notnull`'s negation. -/
def Cell.isNa : Cell → Bool
  | .na => true
  | _ => false

/-- Test for a text value; a column containing one is object-dtype. -/
def Cell.isStr : Cell → Bool
  | .str _ => true
  | _ => false

/-- Numeric view of a cell, `none` when not a number. -/
def Cell.toQ : Cell → Option ℚ
  | .num q => some q
  | _ => none

/-- Lower-case a string character by character (Python `str.lower`). -/
def lowerChars (s : String) : List Char := s.data.map Char.toLower

/-- Does the first character list begin the second one? -/
def startsB : List Char → List Char → Bool
  | [], _ => true
  | _ :: _, [] => false
  | a :: as, b :: bs => a == b && startsB as bs

/-- Substring test on character lists (Python `needle in hay`). -/
def subB (needle hay : List Char) : Bool :=
  hay.tails.any (fun t => startsB needle t)

/-- Case-insensitive substring test, `needle.lower() in hay.lower()`. -/
def occursIn (needle hay : String) : Bool :=
  subB (lowerChars needle) (lowerChars hay)

/-- Case-sensitive substring test, Python `needle in hay`. -/
def occursCS (needle hay : String) : Bool :=
  subB needle.data hay.data

/-- Strip leading and trailing whitespace characters. -/
def stripChars (l : List Char) : List Char :=
  ((l.dropWhile Char.isWhitespace).reverse.dropWhile Char.isWhitespace).reverse

/-- Python `str.strip()` on a column name. -/
def stripName (s : String) : String := ⟨stripChars s.data⟩

/-- The engine state: portfolio name, its private copy of the holdings
table (column labels plus row-major cells) and the column sets resolved
once at construction (`self.rating_cols`, `self.sector_col`,
`self.issuer_col`, `self.currency_col`). -/
structure Analyzer where
  name : String
  cols : List String
  rows : List (List Cell)
  ratingCols : List String
  sectorCol : Option String
  issuerCol : Option String
  currencyCol : Option String
deriving DecidableEq, Repr

/-- Alias candidates for the "rating" role (`alias_map["rating"]`). -/
def ratingAliases : List String :=
  ["Rating", "Composite Rating", "Moody", "S&P", "Fitch", "MSCI"]

/-- Alias candidates for the "sector" role. -/
def sectorAliases : List String :=
  ["Sector", "Issuer Sector", "Industry", "GICS Sector"]

/-- Alias candidates for the "issuer" role. -/
def issuerAliases : List String :=
  ["Issuer Name", "Issuer", "Security Name", "Description", "Ticker"]

/-- Alias candidates for the "currency" role. -/
def currencyAliases : List String :=
  ["Currency", "Ccy", "Base Currency", "Trade Currency"]

/-- `_find_cols`: all columns whose name contains any alias as a
case-insensitive substring, in original column order. -/
def findCols (cols : List String) (aliases : List String) : List String :=
  cols.filter (fun c => aliases.any (fun a => occursIn a c))

/-- `_get_primary_col`: the first match, or `none` when there is none. -/
def primaryCol (cs : List String) : Option String := cs.head?

/-- Cell of a row under a column label: first matching label wins,
missing label reads as `na`. -/
def cellAt : List String → List Cell → String → Cell
  | [], _, _ => Cell.na
  | _ :: _, [], _ => Cell.na
  | c0 :: cs, v :: vs, c => if c0 = c then v else cellAt cs vs c

/-- Replace the cell under the first occurrence of a column label. -/
def setRowCell : List String → List Cell → String → Cell → List Cell
  | c0 :: cs, v :: vs, c, w => if c0 = c then w :: vs else v :: setRowCell cs vs c w
  | _, r, _, _ => r

/-- `self.df[c] = vals`: overwrite the column when the label exists,
otherwise append it as a new last column. -/
def setCol (st : Analyzer) (c : String) (vals : List Cell) : Analyzer :=
  if c ∈ st.cols then
    { st with rows := List.zipWith (fun r v => setRowCell st.cols r c v) st.rows vals }
  else
    { st with cols := st.cols ++ [c],
              rows := List.zipWith (fun r v => r ++ [v]) st.rows vals }

/-- `pd.to_numeric(_, errors="coerce")` on one cell: numbers pass
through, everything else (text, dates, missing) coerces to missing.
String-encoded numerals are modelled as already-parsed `num` cells. -/
def toNumericCell : Cell → Cell
  | .num q => .num q
  | c => if c.isNa then .na else .na

/-- Coerce the Market Value entry of one row to numeric. -/
def coerceRow (cols : List String) (r : List Cell) : List Cell :=
  setRowCell cols r "Market Value" (toNumericCell (cellAt cols r "Market Value"))

/-- `PortfolioAnalyzer.__init__`: take a copy of the caller's table,
strip column names, resolve the role columns once, and coerce the Market
Value column to numeric when it exists. -/
def mkAnalyzer (dfCols : List String) (dfRows : List (List Cell)) (name : String) : Analyzer :=
  let cols := dfCols.map stripName
  { name := name
    cols := cols
    rows := if "Market Value" ∈ cols then dfRows.map (coerceRow cols) else dfRows
    ratingCols := findCols cols ratingAliases
    sectorCol := primaryCol (findCols cols sectorAliases)
    issuerCol := primaryCol (findCols cols issuerAliases)
    currencyCol := primaryCol (findCols cols currencyAliases) }

/-- Market value of a row (`none` when missing or non-numeric). -/
def mvOf (st : Analyzer) (r : List Cell) : Option ℚ :=
  (cellAt st.cols r "Market Value").toQ

/-- NaN-skipping sum of Market Value over a set of rows (`Series.sum`,
empty and all-missing sums are 0, as in pandas). -/
def mvSum (st : Analyzer) (rows : List (List Cell)) : ℚ :=
  (rows.filterMap (mvOf st)).sum

/-- Total market value of the whole table. -/
def totalMV (st : Analyzer) : ℚ := mvSum st st.rows

/-- Rows whose cell under column `c` equals the group key `k`. -/
def keyRows (st : Analyzer) (c : String) (k : Cell) : List (List Cell) :=
  st.rows.filter (fun r => cellAt st.cols r c == k)

/-- Distinct non-missing values of a column in first-appearance order;
`groupby` drops rows whose key is missing (`dropna=True`). -/
def groupKeys (st : Analyzer) (c : String) : List Cell :=
  ((st.rows.map (fun r => cellAt st.cols r c)).filter (fun k => !k.isNa)).dedup

/-- Per-group Market Value sums, `df.groupby(c)["Market Value"].sum()`
before the key sort. -/
def groupSums (st : Analyzer) (c : String) : List (Cell × ℚ) :=
  (groupKeys st c).map (fun k => (k, mvSum st (keyRows st c k)))

/-- Insert into a list sorted by `le` (stable). -/
def insertLe (le : α → α → Bool) (x : α) : List α → List α
  | [] => [x]
  | y :: ys => if le x y then x :: y :: ys else y :: insertLe le x ys

/-- Stable insertion sort by a boolean comparison. -/
def sortLe (le : α → α → Bool) : List α → List α
  | [] => []
  | x :: xs => insertLe le x (sortLe le xs)

/-- Lexicographic comparison of character lists by code point. -/
def charsLe : List Char → List Char → Bool
  | [], _ => true
  | _ :: _, [] => false
  | a :: as, b :: bs =>
    if a.toNat < b.toNat then true
    else if b.toNat < a.toNat then false
    else charsLe as bs

/-- Total comparison on cells, used for label-ascending ordering.
Within one distribution all keys share a shape, so the cross-shape
branches are arbitrary tie-breaks. -/
def cellLe : Cell → Cell → Bool
  | .na, _ => true
  | _, .na => false
  | .num a, .num b => decide (a ≤ b)
  | .num _, _ => true
  | _, .num _ => false
  | .str a, .str b => charsLe a.data b.data
  | .str _, _ => true
  | _, .str _ => false
  | .date a, .date b => decide (a ≤ b)

/-- Sort distribution entries by key ascending (`sort_index`, and the
default `sort=True` of `groupby`). -/
def sortAsc (d : List (Cell × ℚ)) : List (Cell × ℚ) :=
  sortLe (fun x y => cellLe x.1 y.1) d

/-- Sort distribution entries by value descending
(`sort_values(ascending=False)`, `nlargest`). -/
def sortDesc (d : List (Cell × ℚ)) : List (Cell × ℚ) :=
  sortLe (fun x y => decide (y.2 ≤ x.2)) d

/-- `df.groupby(c)["Market Value"].sum()`: group sums, keys ascending. -/
def groupbyMV (st : Analyzer) (c : String) : List (Cell × ℚ) :=
  sortAsc (groupSums st c)

/-- `dist / dist.sum() * 100`: per-group percentage of the grand total
of the group sums. -/
def pctOf (gs : List (Cell × ℚ)) : List (Cell × ℚ) :=
  gs.map (fun g => (g.1, g.2 / (gs.map Prod.snd).sum * 100))

/-- Weighted percentage distribution sorted by key ascending. -/
def pctByKeyAsc (st : Analyzer) (c : String) : List (Cell × ℚ) :=
  sortAsc (pctOf (groupbyMV st c))

/-- Weighted percentage distribution sorted by percentage descending. -/
def pctByValDesc (st : Analyzer) (c : String) : List (Cell × ℚ) :=
  sortDesc (pctOf (groupbyMV st c))

/-- A result series: optional `name` label plus (key, value) entries. -/
structure Ser where
  label : Option String
  entries : List (Cell × ℚ)
deriving DecidableEq, Repr

/-- Agency priority order of `combined_rating`. -/
def agencyOrder : List String := ["Fitch", "Moody", "S&P", "MSCI"]

/-- `pick_rating(row)`: walk agencies in priority order and, within one
agency, the rating columns in original column order; return the first
non-missing value, else missing. -/
def pick_rating (st : Analyzer) (row : List Cell) : Cell :=
  match agencyOrder.findSome? (fun p =>
    st.ratingCols.findSome? (fun c =>
      if occursIn p c then
        match cellAt st.cols row c with
        | Cell.na => none
        | v => some v
      else none)) with
  | some v => v
  | none => Cell.na

/-- `combined_rating`: `none` when no rating columns exist; otherwise
write the per-row picked rating as the "Composite Rating" column and
return that column name.  The source recomputes the column on every
call (there is no cache guard). -/
def combined_rating (st : Analyzer) : Option String × Analyzer :=
  if st.ratingCols = [] then (none, st)
  else (some "Composite Rating",
        setCol st "Composite Rating" (st.rows.map (pick_rating st)))

/-- `credit_distribution`: distribution over the Composite Rating column
(built first), label-ascending; empty series when no rating columns.
The `groupby(...)["Market Value"]` lookup is the KeyError site when the
Market Value column is absent. -/
def credit_distribution (st : Analyzer) : Except String Ser × Analyzer :=
  match combined_rating st with
  | (some c, st1) =>
      (if "Market Value" ∈ st1.cols then
        Except.ok { label := none, entries := pctByKeyAsc st1 c }
      else Except.error "KeyError: Market Value", st1)
  | (none, st1) => (Except.ok { label := none, entries := [] }, st1)

/-- `rating_distributions`: one label-ascending distribution per rating
column resolved at construction, keyed by the original column name. -/
def rating_distributions (st : Analyzer) : Except String (List (String × List (Cell × ℚ))) :=
  if st.ratingCols = [] then Except.ok []
  else if "Market Value" ∈ st.cols then
    Except.ok (st.ratingCols.map (fun c => (c, pctByKeyAsc st c)))
  else Except.error "KeyError: Market Value"

/-- `sector_exposure`: percentage-descending distribution over the
primary sector column; unlabeled empty series when none resolves. -/
def sector_exposure (st : Analyzer) : Except String Ser :=
  match st.sectorCol with
  | some c =>
      if "Market Value" ∈ st.cols then
        Except.ok { label := none, entries := pctByValDesc st c }
      else Except.error "KeyError: Market Value"
  | none => Except.ok { label := none, entries := [] }

/-- Columns tagged as KRD contribution columns: case-sensitive substring
match, original column order. -/
def krdCols (st : Analyzer) : List String :=
  st.cols.filter (fun c => occursCS "KRD Contribution" c)

/-- NaN-skipping sum of `column value * Market Value` over all rows
(the elementwise `multiply(...).sum()` family). -/
def prodSum (st : Analyzer) (c : String) : ℚ :=
  (st.rows.filterMap (fun r =>
    match (cellAt st.cols r c).toQ, mvOf st r with
    | some k, some m => some (k * m)
    | _, _ => none)).sum

/-- `krd_profile`: one market-value-weighted contribution per KRD tenor
column, in original column order; empty when no KRD columns exist. -/
def krd_profile (st : Analyzer) : Except String (List (String × ℚ)) :=
  if krdCols st = [] then Except.ok []
  else if "Market Value" ∈ st.cols then
    Except.ok ((krdCols st).map (fun c => (c, prodSum st c / totalMV st)))
  else Except.error "KeyError: Market Value"

/-- `top_holdings(n)`: group by the primary issuer column, keep the `n`
largest market-value sums descending; a labeled empty series when no
issuer column resolves. -/
def top_holdings (st : Analyzer) (n : ℕ) : Except String Ser :=
  match st.issuerCol with
  | some c =>
      if "Market Value" ∈ st.cols then
        Except.ok { label := none, entries := (sortDesc (groupbyMV st c)).take n }
      else Except.error "KeyError: Market Value"
  | none => Except.ok { label := some "No Issuer Column Found", entries := [] }

/-- `duration`: market-value-weighted average of the first column whose
name contains "duration" case-insensitively; a null field when none. -/
def duration (st : Analyzer) : Except String (String × Option ℚ) :=
  match st.cols.find? (fun c => occursIn "duration" c) with
  | some c =>
      if "Market Value" ∈ st.cols then
        Except.ok (st.name, some (prodSum st c / totalMV st))
      else Except.error "KeyError: Market Value"
  | none => Except.ok (st.name, none)

/-- The fixed maturity bucket labels, in category definition order. -/
def bucketLabels : List String := ["0-3y", "3-5y", "5-10y", "10-30y", "30y+"]

/-- `pd.cut(years, bins=[0,3,5,10,30,100], labels, right=False)` on one
value: half-open lower-inclusive intervals, `none` outside `[0, 100)`. -/
def cutYears (y : ℚ) : Option String :=
  if 0 ≤ y ∧ y < 3 then some "0-3y"
  else if 3 ≤ y ∧ y < 5 then some "3-5y"
  else if 5 ≤ y ∧ y < 10 then some "5-10y"
  else if 10 ≤ y ∧ y < 30 then some "10-30y"
  else if 30 ≤ y ∧ y < 100 then some "30y+"
  else none

/-- `pd.to_datetime(_, errors="coerce")` on one cell. -/
def toDateCell : Cell → Cell
  | .date d => .date d
  | _ => .na

/-- `(maturity_date - today).dt.days / 365.0` on one cell. -/
def yearsFrom (today : ℤ) : Cell → Cell
  | .date d => .num (((d - today : ℤ) : ℚ) / 365)
  | _ => .na

/-- The bucket cell of a years-to-maturity cell; `na` (categorical NaN)
when the years value is missing or falls outside every bin. -/
def bucketCell : Cell → Cell
  | .num y =>
      match cutYears y with
      | some l => .str l
      | none => .na
  | _ => .na

/-- The engine state after `maturity_buckets` has written its three
derived columns "Maturity Date", "Years to Maturity" and
"Maturity Bucket" (in that order). -/
def bucketState (today : ℤ) (st : Analyzer) : Analyzer :=
  let st1 := setCol st "Maturity Date"
    (st.rows.map (fun r => toDateCell (cellAt st.cols r "Maturity")))
  let st2 := setCol st1 "Years to Maturity"
    (st1.rows.map (fun r => yearsFrom today (cellAt st1.cols r "Maturity Date")))
  setCol st2 "Maturity Bucket"
    (st2.rows.map (fun r => bucketCell (cellAt st2.cols r "Years to Maturity")))

/-- `groupby("Maturity Bucket", observed=False)["Market Value"].sum()`:
one sum per categorical label in category order, zero for empty buckets,
rows with a missing bucket dropped. -/
def bucketGroups (today : ℤ) (st : Analyzer) : List (Cell × ℚ) :=
  bucketLabels.map (fun l =>
    (Cell.str l, mvSum (bucketState today st) (keyRows (bucketState today st) "Maturity Bucket" (Cell.str l))))

/-- `maturity_buckets`: labeled empty series (and no mutation) when no
"Maturity" column exists; otherwise write the three derived columns and
return the bucket percentage distribution in category order
(`sort_index` on a categorical index keeps category order). -/
def maturity_buckets (today : ℤ) (st : Analyzer) : Except String Ser × Analyzer :=
  if "Maturity" ∈ st.cols then
    (if "Market Value" ∈ (bucketState today st).cols then
      Except.ok { label := none, entries := pctOf (bucketGroups today st) }
    else Except.error "KeyError: Market Value", bucketState today st)
  else (Except.ok { label := some "No Maturity Column Found", entries := [] }, st)

/-- `currency_exposure`: percentage-descending distribution over the
primary currency column; labeled empty series when none resolves. -/
def currency_exposure (st : Analyzer) : Except String Ser :=
  match st.currencyCol with
  | some c =>
      if "Market Value" ∈ st.cols then
        Except.ok { label := none, entries := pctByValDesc st c }
      else Except.error "KeyError: Market Value"
  | none => Except.ok { label := some "No Currency Column Found", entries := [] }

/-- Object-dtype test for a column (`select_dtypes(include="object")`):
a pandas column is object-dtype exactly when it holds text values. -/
def isObjectCol (st : Analyzer) (c : String) : Bool :=
  (st.rows.map (fun r => cellAt st.cols r c)).any Cell.isStr

/-- `categorical_breakdowns(top_n)`: for every object-dtype column not in
the fixed exclusion set, the percentage-descending distribution truncated
to its first `topN` entries, keyed by column name. -/
def categorical_breakdowns (st : Analyzer) (topN : ℕ) : Except String (List (String × List (Cell × ℚ))) :=
  let cs := (st.cols.filter (isObjectCol st)).filter
    (fun c => !(c == "Issuer Name" || c == "Description"))
  if cs = [] then Except.ok []
  else if "Market Value" ∈ st.cols then
    Except.ok (cs.map (fun c => (c, (pctByValDesc st c).take topN)))
  else Except.error "KeyError: Market Value"

/-- `summary`: portfolio label, total market value, optional weighted
yield to worst and optional average maturity; the very first line reads
`self.df["Market Value"]`, the KeyError site when that column is absent. -/
def summary (today : ℤ) (st : Analyzer) : Except String (String × ℚ × Option ℚ × Option ℚ) :=
  if "Market Value" ∈ st.cols then
    let dayList := st.rows.filterMap (fun r =>
      match toDateCell (cellAt st.cols r "Maturity") with
      | .date d => some ((d - today : ℤ) : ℚ)
      | _ => none)
    Except.ok (st.name, totalMV st,
      if "Yield to Worst" ∈ st.cols then
        some (prodSum st "Yield to Worst" / totalMV st)
      else none,
      if "Maturity" ∈ st.cols then
        some (dayList.sum / (dayList.length : ℚ) / 365)
      else none)
  else Except.error "KeyError: Market Value"

/-- Instrumented `credit_distribution`: the counter is bumped each time
the row-wise `pick_rating` pass (the `df.apply` inside
`combined_rating`) executes; the source runs that pass unconditionally
whenever rating columns exist, with no cache guard. -/
def credit_distribution_traced (st : Analyzer) (k : ℕ) :
    Except String Ser × Analyzer × ℕ :=
  match credit_distribution st with
  | (r, st1) => (r, st1, if st.ratingCols = [] then k else k + 1)

/-- Read a whole column's cells in row order; missing labels read as
an all-missing column. -/
def colCellsOf (st : Analyzer) (c : String) : List Cell :=
  st.rows.map (fun r => cellAt st.cols r c)

/-- Well-formedness of a table: every row has one cell per column. -/
def wf (st : Analyzer) : Prop :=
  ∀ r ∈ st.rows, r.length = st.cols.length

instance (st : Analyzer) : Decidable (wf st) :=
  List.decidableBAll _ st.rows

/-- Read a whole column back; `none` when the label is absent. -/
def getColVals (st : Analyzer) (c : String) : Option (List Cell) :=
  if c ∈ st.cols then some (st.rows.map (fun r => cellAt st.cols r c)) else none

/-- Decidable equality for `Except` results (both components decidable). -/
instance {e a : Type} [DecidableEq e] [DecidableEq a] : DecidableEq (Except e a) := fun x y =>
  match x, y with
  | .ok u, .ok v =>
      if h : u = v then .isTrue (by rw [h]) else .isFalse (by intro hc; cases hc; exact h rfl)
  | .error u, .error v =>
      if h : u = v then .isTrue (by rw [h]) else .isFalse (by intro hc; cases hc; exact h rfl)
  | .ok _, .error _ => .isFalse (by intro hc; cases hc)
  | .error _, .ok _ => .isFalse (by intro hc; cases hc)

/-- Example table: three agency rating columns, Moody first. -/
def tblAgencyA : Analyzer :=
  mkAnalyzer ["Moody Rtg", "S&P Rtg", "Fitch Rtg", "Market Value"]
    [[Cell.na, Cell.str "A", Cell.str "AA", Cell.num 100]] "P"

/-- Example table: the same row with the rating columns reversed. -/
def tblAgencyB : Analyzer :=
  mkAnalyzer ["Fitch Rtg", "S&P Rtg", "Moody Rtg", "Market Value"]
    [[Cell.str "AA", Cell.str "A", Cell.na, Cell.num 100]] "P"

/-- Example table: one rated row and one row with no rating at all. -/
def tblHalfRated : Analyzer :=
  mkAnalyzer ["Moody Rating", "Market Value"]
    [[Cell.str "A", Cell.num 100], [Cell.na, Cell.num 50]] "P"

/-- Example table: maturities of 100 years and 1 year from day 0. -/
def tblFarMaturity : Analyzer :=
  mkAnalyzer ["Maturity", "Market Value"]
    [[Cell.date 36500, Cell.num 100], [Cell.date 365, Cell.num 50]] "P"

/-- Example table: a text column with eleven distinct values. -/
def tblElevenSectors : Analyzer :=
  mkAnalyzer ["Sector", "Market Value"]
    ((List.range 11).map (fun i => [Cell.str (toString i), Cell.num 1])) "P"

/-- Example table: one KRD tenor column, contributions 0.10 and 0.20
with market values 100 and 300. -/
def tblKrd : Analyzer :=
  mkAnalyzer ["KRD Contribution 2Y", "Market Value"]
    [[Cell.num (1/10), Cell.num 100], [Cell.num (1/5), Cell.num 300]] "P"

/-- Example table: a Market Value column and nothing optional at all. -/
def tblBare : Analyzer :=
  mkAnalyzer ["Market Value"] [[Cell.num 100]] "P"

/-- Example table: rating, sector, currency and maturity all present
and fully populated. -/
def tblRich : Analyzer :=
  mkAnalyzer ["Moody Rating", "Sector", "Currency", "Maturity", "Market Value"]
    [[Cell.str "A", Cell.str "Tech", Cell.str "USD", Cell.date 365, Cell.num 100],
     [Cell.str "B", Cell.str "Fin", Cell.str "USD", Cell.date 2000, Cell.num 300]] "P"

/-! ### Generic list lemmas -/

theorem zipWith_map_map {f : α → β → γ} {u : δ → α} {g : δ → β} :
    ∀ l : List δ, List.zipWith f (l.map u) (l.map g) = l.map (fun a => f (u a) (g a)) := by
  intro l
  induction l with
  | nil => rfl
  | cons a l ih => simp [List.zipWith, ih]

theorem zipWith_map_right {f : α → β → γ} {g : α → β} :
    ∀ l : List α, List.zipWith f l (l.map g) = l.map (fun a => f a (g a)) := by
  intro l
  induction l with
  | nil => rfl
  | cons a l ih => simp [List.zipWith, ih]

theorem insertLe_perm (le : α → α → Bool) (x : α) :
    ∀ l : List α, (insertLe le x l).Perm (x :: l) := by
  intro l
  induction l with
  | nil => exact List.Perm.refl _
  | cons y ys ih =>
    by_cases h : le x y
    · simp [insertLe, h]
    · simp only [insertLe, h, if_neg, Bool.false_eq_true, not_false_eq_true, ite_false]
      exact ((ih.cons y).trans (List.Perm.swap x y ys))

theorem sortLe_perm (le : α → α → Bool) :
    ∀ l : List α, (sortLe le l).Perm l := by
  intro l
  induction l with
  | nil => exact List.Perm.refl _
  | cons x xs ih => exact (insertLe_perm le x (sortLe le xs)).trans (ih.cons x)

theorem sortLe_mem (le : α → α → Bool) (l : List α) (a : α) :
    a ∈ sortLe le l ↔ a ∈ l :=
  (sortLe_perm le l).mem_iff

theorem sortLe_length (le : α → α → Bool) (l : List α) :
    (sortLe le l).length = l.length :=
  (sortLe_perm le l).length_eq

theorem filterMap_sum_getD (f : α → Option ℚ) :
    ∀ l : List α, (l.filterMap f).sum = (l.map (fun a => (f a).getD 0)).sum := by
  intro l
  induction l with
  | nil => rfl
  | cons a l ih =>
    cases h : f a <;> simp [List.filterMap_cons, h, ih]

theorem sum_map_addQ (f g : α → ℚ) :
    ∀ l : List α, (l.map (fun a => f a + g a)).sum = (l.map f).sum + (l.map g).sum := by
  intro l
  induction l with
  | nil => simp
  | cons a l ih => simp [ih]; ring

theorem no_hit_sum (x : Cell) (q : ℚ) :
    ∀ ks : List Cell, x ∉ ks → (ks.map (fun k => if x = k then q else 0)).sum = 0 := by
  intro ks
  induction ks with
  | nil => intro _; rfl
  | cons k ks ih =>
    intro hx
    have hxk : x ≠ k := fun h => hx (h ▸ List.mem_cons_self k ks)
    simp [hxk, ih (fun h => hx (List.mem_cons_of_mem k h))]

theorem single_hit_sum (x : Cell) (q : ℚ) :
    ∀ ks : List Cell, ks.Nodup →
      (ks.map (fun k => if x = k then q else 0)).sum = if x ∈ ks then q else 0 := by
  intro ks
  induction ks with
  | nil => intro _; simp
  | cons k ks ih =>
    intro hnd
    rcases List.nodup_cons.mp hnd with ⟨hk, hnd2⟩
    by_cases hx : x = k
    · subst hx
      simp [no_hit_sum x q ks hk]
    · simp [hx, ih hnd2]

theorem weight_filter_sum (v : α → ℚ) (p : α → Bool) :
    ∀ rows : List α,
      ((rows.filter p).map v).sum = (rows.map (fun r => if p r then v r else 0)).sum := by
  intro rows
  induction rows with
  | nil => rfl
  | cons a rows ih =>
    by_cases h : p a <;> simp [List.filter_cons, h, ih]

theorem partition_sum (key : α → Cell) (v : α → ℚ) (ks : List Cell) (hnd : ks.Nodup) :
    ∀ rows : List α,
      (ks.map (fun k => ((rows.filter (fun r => key r == k)).map v).sum)).sum
        = ((rows.filter (fun r => decide (key r ∈ ks))).map v).sum := by
  intro rows
  induction rows with
  | nil => simp
  | cons a rows ih =>
    have hsplit : ∀ k : Cell,
        (((a :: rows).filter (fun r => key r == k)).map v).sum
          = (if key a = k then v a else 0)
              + ((rows.filter (fun r => key r == k)).map v).sum := by
      intro k
      by_cases h : key a = k <;> simp [List.filter_cons, h]
    calc (ks.map (fun k => (((a :: rows).filter (fun r => key r == k)).map v).sum)).sum
        = (ks.map (fun k => (if key a = k then v a else 0)
              + ((rows.filter (fun r => key r == k)).map v).sum)).sum := by
          exact congrArg List.sum (List.map_congr_left (fun k _ => hsplit k))
      _ = (ks.map (fun k => if key a = k then v a else 0)).sum
            + (ks.map (fun k => ((rows.filter (fun r => key r == k)).map v).sum)).sum := by
          exact sum_map_addQ _ _ ks
      _ = (if key a ∈ ks then v a else 0)
            + (((rows.filter (fun r => decide (key r ∈ ks))).map v)).sum := by
          rw [single_hit_sum (key a) (v a) ks hnd, ih]
      _ = (((a :: rows).filter (fun r => decide (key r ∈ ks))).map v).sum := by
          by_cases h : key a ∈ ks <;> simp [List.filter_cons, h]

theorem findSome?_congr (f g : α → Option β) :
    ∀ l : List α, (∀ a ∈ l, f a = g a) → l.findSome? f = l.findSome? g := by
  intro l
  induction l with
  | nil => intro _; rfl
  | cons a l ih =>
    intro h
    rw [List.findSome?_cons, List.findSome?_cons, h a (List.mem_cons_self a l)]
    cases g a with
    | some b => rfl
    | none => exact ih (fun x hx => h x (List.mem_cons_of_mem a hx))

/-! ### Frame lemmas for column reads and writes -/

theorem cellAt_setRowCell_ne (c d : String) (w : Cell) (hd : d ≠ c) :
    ∀ (cols : List String) (r : List Cell),
      cellAt cols (setRowCell cols r c w) d = cellAt cols r d := by
  intro cols
  induction cols with
  | nil => intro r; rfl
  | cons c0 cs ih =>
    intro r
    cases r with
    | nil => rfl
    | cons v vs =>
      by_cases h : c0 = c
      · subst h
        have hcd : c0 ≠ d := fun he => hd he.symm
        simp [setRowCell, cellAt, hcd]
      · by_cases h2 : c0 = d
        · subst h2
          simp [setRowCell, cellAt, h, hd]
        · simp [setRowCell, cellAt, h, h2, ih]

theorem cellAt_setRowCell_self (c : String) (w : Cell) :
    ∀ (cols : List String) (r : List Cell), c ∈ cols → r.length = cols.length →
      cellAt cols (setRowCell cols r c w) c = w := by
  intro cols
  induction cols with
  | nil => intro r hm; exact absurd hm (List.not_mem_nil c)
  | cons c0 cs ih =>
    intro r hm hlen
    cases r with
    | nil => exact absurd hlen.symm (by simp)
    | cons v vs =>
      by_cases h : c0 = c
      · subst h; simp [setRowCell, cellAt]
      · have hm2 : c ∈ cs := by
          rcases List.mem_cons.mp hm with h1 | h1
          · exact absurd h1.symm h
          · exact h1
        have hlen2 : vs.length = cs.length := by simpa using hlen
        simp [setRowCell, cellAt, h, ih vs hm2 hlen2]

theorem length_setRowCell (c : String) (w : Cell) :
    ∀ (cols : List String) (r : List Cell), (setRowCell cols r c w).length = r.length := by
  intro cols
  induction cols with
  | nil => intro r; rfl
  | cons c0 cs ih =>
    intro r
    cases r with
    | nil => rfl
    | cons v vs =>
      by_cases h : c0 = c <;> simp [setRowCell, h, ih]

theorem cellAt_append_ne (c d : String) (w : Cell) (hd : d ≠ c) :
    ∀ (cols : List String) (r : List Cell), r.length = cols.length →
      cellAt (cols ++ [c]) (r ++ [w]) d = cellAt cols r d := by
  intro cols
  induction cols with
  | nil =>
    intro r hlen
    have hr : r = [] := List.length_eq_zero.mp hlen
    subst hr
    have hcd : c ≠ d := fun he => hd he.symm
    simp [cellAt, hcd]
  | cons c0 cs ih =>
    intro r hlen
    cases r with
    | nil => exact absurd hlen (by simp)
    | cons v vs =>
      have hlen2 : vs.length = cs.length := by simpa using hlen
      by_cases h : c0 = d <;> simp [cellAt, h, ih vs hlen2]

theorem cellAt_append_self (c : String) (w : Cell) :
    ∀ (cols : List String) (r : List Cell), c ∉ cols → r.length = cols.length →
      cellAt (cols ++ [c]) (r ++ [w]) c = w := by
  intro cols
  induction cols with
  | nil =>
    intro r _ hlen
    have : r = [] := List.length_eq_zero.mp hlen
    subst this
    simp [cellAt]
  | cons c0 cs ih =>
    intro r hm hlen
    cases r with
    | nil => exact absurd hlen (by simp)
    | cons v vs =>
      have h0 : c0 ≠ c := fun he => hm (he ▸ List.mem_cons_self c0 cs)
      have hm2 : c ∉ cs := fun hx => hm (List.mem_cons_of_mem c0 hx)
      have hlen2 : vs.length = cs.length := by simpa using hlen
      simp [cellAt, h0, ih vs hm2 hlen2]

theorem setRowCell_cellAt_id (c : String) :
    ∀ (cols : List String) (r : List Cell),
      setRowCell cols r c (cellAt cols r c) = r := by
  intro cols
  induction cols with
  | nil => intro r; rfl
  | cons c0 cs ih =>
    intro r
    cases r with
    | nil => rfl
    | cons v vs =>
      by_cases h : c0 = c <;> simp [setRowCell, cellAt, h, ih]

theorem setCol_name (st : Analyzer) (c : String) (vals : List Cell) :
    (setCol st c vals).name = st.name := by
  unfold setCol; split <;> rfl

theorem setCol_ratingCols (st : Analyzer) (c : String) (vals : List Cell) :
    (setCol st c vals).ratingCols = st.ratingCols := by
  unfold setCol; split <;> rfl

theorem setCol_sectorCol (st : Analyzer) (c : String) (vals : List Cell) :
    (setCol st c vals).sectorCol = st.sectorCol := by
  unfold setCol; split <;> rfl

theorem setCol_issuerCol (st : Analyzer) (c : String) (vals : List Cell) :
    (setCol st c vals).issuerCol = st.issuerCol := by
  unfold setCol; split <;> rfl

theorem setCol_currencyCol (st : Analyzer) (c : String) (vals : List Cell) :
    (setCol st c vals).currencyCol = st.currencyCol := by
  unfold setCol; split <;> rfl

theorem setCol_rows_of_map (st : Analyzer) (c : String) (g : List Cell → Cell) :
    (setCol st c (st.rows.map g)).rows
      = if c ∈ st.cols then st.rows.map (fun r => setRowCell st.cols r c (g r))
        else st.rows.map (fun r => r ++ [g r]) := by
  unfold setCol
  split <;> rw [zipWith_map_right]

theorem setCol_mem_cols (st : Analyzer) (c d : String) (vals : List Cell) (hd : d ∈ st.cols) :
    d ∈ (setCol st c vals).cols := by
  unfold setCol
  split
  · exact hd
  · exact List.mem_append_left _ hd

theorem setCol_cols_sub (st : Analyzer) (c d : String) (vals : List Cell)
    (hd : d ∈ (setCol st c vals).cols) : d ∈ st.cols ∨ d = c := by
  revert hd
  unfold setCol
  split
  · exact fun hd => Or.inl hd
  · intro hd
    rcases List.mem_append.mp hd with h | h
    · exact Or.inl h
    · exact Or.inr (List.mem_singleton.mp h)

theorem wf_setCol_of_map (st : Analyzer) (c : String) (g : List Cell → Cell)
    (hwf : wf st) : wf (setCol st c (st.rows.map g)) := by
  intro r hr
  rw [setCol_rows_of_map] at hr
  by_cases hc : c ∈ st.cols
  · rw [if_pos hc] at hr
    rcases List.mem_map.mp hr with ⟨r0, hr0, he⟩
    have : (setCol st c (st.rows.map g)).cols = st.cols := by
      unfold setCol; rw [if_pos hc]
    rw [this, ← he, length_setRowCell]
    exact hwf r0 hr0
  · rw [if_neg hc] at hr
    rcases List.mem_map.mp hr with ⟨r0, hr0, he⟩
    have : (setCol st c (st.rows.map g)).cols = st.cols ++ [c] := by
      unfold setCol; rw [if_neg hc]
    rw [this, ← he]
    simp [hwf r0 hr0]

theorem colCells_setCol_map_ne (st : Analyzer) (c d : String) (g : List Cell → Cell)
    (hwf : wf st) (hd : d ≠ c) :
    colCellsOf (setCol st c (st.rows.map g)) d = colCellsOf st d := by
  unfold colCellsOf
  by_cases hc : c ∈ st.cols
  · have hcols : (setCol st c (st.rows.map g)).cols = st.cols := by
      unfold setCol; rw [if_pos hc]
    rw [setCol_rows_of_map, if_pos hc, hcols, List.map_map]
    exact List.map_congr_left (fun r hr => cellAt_setRowCell_ne c d (g r) hd st.cols r)
  · have hcols : (setCol st c (st.rows.map g)).cols = st.cols ++ [c] := by
      unfold setCol; rw [if_neg hc]
    rw [setCol_rows_of_map, if_neg hc, hcols, List.map_map]
    exact List.map_congr_left
      (fun r hr => cellAt_append_ne c d (g r) hd st.cols r (hwf r hr))

theorem colCells_setCol_map_self (st : Analyzer) (c : String) (g : List Cell → Cell)
    (hwf : wf st) :
    colCellsOf (setCol st c (st.rows.map g)) c = st.rows.map g := by
  unfold colCellsOf
  by_cases hc : c ∈ st.cols
  · have hcols : (setCol st c (st.rows.map g)).cols = st.cols := by
      unfold setCol; rw [if_pos hc]
    rw [setCol_rows_of_map, if_pos hc, hcols, List.map_map]
    exact List.map_congr_left
      (fun r hr => cellAt_setRowCell_self c (g r) st.cols r hc (hwf r hr))
  · have hcols : (setCol st c (st.rows.map g)).cols = st.cols ++ [c] := by
      unfold setCol; rw [if_neg hc]
    rw [setCol_rows_of_map, if_neg hc, hcols, List.map_map]
    exact List.map_congr_left
      (fun r hr => cellAt_append_self c (g r) st.cols r hc (hwf r hr))

theorem rows_length_setCol_of_map (st : Analyzer) (c : String) (g : List Cell → Cell) :
    (setCol st c (st.rows.map g)).rows.length = st.rows.length := by
  rw [setCol_rows_of_map]
  split <;> simp

/-! ### Distribution lemmas -/

theorem Cell.isNa_iff (x : Cell) : x.isNa = true ↔ x = Cell.na := by
  cases x <;> simp [Cell.isNa]

theorem mvSum_eq_map_sum (st : Analyzer) (rows : List (List Cell)) :
    mvSum st rows = (rows.map (fun r => (mvOf st r).getD 0)).sum :=
  filterMap_sum_getD (mvOf st) rows

theorem pctOf_fst (gs : List (Cell × ℚ)) :
    (pctOf gs).map Prod.fst = gs.map Prod.fst := by
  unfold pctOf
  rw [List.map_map]
  rfl

theorem pctOf_length (gs : List (Cell × ℚ)) : (pctOf gs).length = gs.length := by
  unfold pctOf; rw [List.length_map]

theorem pctOf_snd_sum (gs : List (Cell × ℚ)) (h : (gs.map Prod.snd).sum ≠ 0) :
    ((pctOf gs).map Prod.snd).sum = 100 := by
  unfold pctOf
  rw [List.map_map]
  have h1 : ((fun g : Cell × ℚ => g.2 / (gs.map Prod.snd).sum * 100)) =
      (fun g : Cell × ℚ => g.2 * (100 / (gs.map Prod.snd).sum)) := by
    funext g
    rw [div_mul_eq_mul_div, mul_div_assoc]
  have h2 : (Prod.snd ∘ fun g : Cell × ℚ => (g.1, g.2 / (gs.map Prod.snd).sum * 100)) =
      (fun g : Cell × ℚ => g.2 * (100 / (gs.map Prod.snd).sum)) := by
    funext g
    exact congrFun h1 g
  rw [h2, List.sum_map_mul_right]
  field_simp

theorem sortLe_map_snd_sum (le : Cell × ℚ → Cell × ℚ → Bool) (l : List (Cell × ℚ)) :
    ((sortLe le l).map Prod.snd).sum = (l.map Prod.snd).sum :=
  ((sortLe_perm le l).map Prod.snd).sum_eq

theorem groupKeys_nodup (st : Analyzer) (c : String) : (groupKeys st c).Nodup :=
  List.nodup_dedup _

theorem na_not_mem_groupKeys (st : Analyzer) (c : String) :
    Cell.na ∉ groupKeys st c := by
  intro hmem
  have h2 := List.mem_dedup.mp hmem
  have h3 := (List.mem_filter.mp h2).2
  simp [Cell.isNa] at h3

theorem groupSums_fst (st : Analyzer) (c : String) :
    (groupSums st c).map Prod.fst = groupKeys st c := by
  unfold groupSums
  rw [List.map_map]
  exact List.map_id _

theorem groupSums_length (st : Analyzer) (c : String) :
    (groupSums st c).length = (groupKeys st c).length := by
  unfold groupSums; rw [List.length_map]

theorem mem_groupKeys_iff (st : Analyzer) (c : String) (r : List Cell) (hr : r ∈ st.rows) :
    cellAt st.cols r c ∈ groupKeys st c ↔ (cellAt st.cols r c).isNa = false := by
  constructor
  · intro hmem
    have h2 := (List.mem_filter.mp (List.mem_dedup.mp hmem)).2
    simpa using h2
  · intro hna
    apply List.mem_dedup.mpr
    apply List.mem_filter.mpr
    exact ⟨List.mem_map_of_mem _ hr, by simp [hna]⟩

theorem groupSums_snd_sum (st : Analyzer) (c : String) :
    ((groupSums st c).map Prod.snd).sum
      = mvSum st (st.rows.filter (fun r => !(cellAt st.cols r c).isNa)) := by
  unfold groupSums
  rw [List.map_map]
  have hstep : (groupKeys st c).map (Prod.snd ∘ fun k => (k, mvSum st (keyRows st c k)))
      = (groupKeys st c).map (fun k =>
          (((st.rows.filter (fun r => cellAt st.cols r c == k)).map
            (fun r => (mvOf st r).getD 0)).sum)) := by
    apply List.map_congr_left
    intro k _
    show mvSum st (keyRows st c k) = _
    rw [mvSum_eq_map_sum]
    rfl
  rw [hstep, partition_sum (fun r => cellAt st.cols r c) (fun r => (mvOf st r).getD 0)
    (groupKeys st c) (groupKeys_nodup st c) st.rows]
  rw [mvSum_eq_map_sum]
  congr 1
  apply congrArg
  apply List.filter_congr
  intro r hr
  by_cases hna : (cellAt st.cols r c).isNa = true
  · have : cellAt st.cols r c ∉ groupKeys st c := by
      rw [(Cell.isNa_iff _).mp hna]
      exact na_not_mem_groupKeys st c
    simp [this, hna]
  · have hf : (cellAt st.cols r c).isNa = false := by
      cases h : (cellAt st.cols r c).isNa
      · rfl
      · exact absurd h hna
    have : cellAt st.cols r c ∈ groupKeys st c := (mem_groupKeys_iff st c r hr).mpr hf
    simp [this, hf]

theorem groupSums_snd_sum_pop (st : Analyzer) (c : String)
    (hpop : ∀ r ∈ st.rows, (cellAt st.cols r c).isNa = false) :
    ((groupSums st c).map Prod.snd).sum = totalMV st := by
  rw [groupSums_snd_sum]
  unfold totalMV
  congr 1
  apply List.filter_eq_self.mpr
  intro r hr
  simp [hpop r hr]

theorem pctByKeyAsc_snd_sum (st : Analyzer) (c : String)
    (hpop : ∀ r ∈ st.rows, (cellAt st.cols r c).isNa = false)
    (ht : totalMV st ≠ 0) :
    ((pctByKeyAsc st c).map Prod.snd).sum = 100 := by
  unfold pctByKeyAsc sortAsc
  rw [sortLe_map_snd_sum]
  apply pctOf_snd_sum
  unfold groupbyMV sortAsc
  rw [sortLe_map_snd_sum, groupSums_snd_sum_pop st c hpop]
  exact ht

theorem pctByValDesc_snd_sum (st : Analyzer) (c : String)
    (hpop : ∀ r ∈ st.rows, (cellAt st.cols r c).isNa = false)
    (ht : totalMV st ≠ 0) :
    ((pctByValDesc st c).map Prod.snd).sum = 100 := by
  unfold pctByValDesc sortDesc
  rw [sortLe_map_snd_sum]
  apply pctOf_snd_sum
  unfold groupbyMV sortAsc
  rw [sortLe_map_snd_sum, groupSums_snd_sum_pop st c hpop]
  exact ht

theorem na_not_mem_pctByKeyAsc (st : Analyzer) (c : String) :
    Cell.na ∉ (pctByKeyAsc st c).map Prod.fst := by
  intro hmem
  rcases List.mem_map.mp hmem with ⟨g, hg, hfst⟩
  unfold pctByKeyAsc sortAsc at hg
  rw [sortLe_mem] at hg
  have : Cell.na ∈ (pctOf (groupbyMV st c)).map Prod.fst :=
    hfst ▸ List.mem_map_of_mem _ hg
  rw [pctOf_fst] at this
  rcases List.mem_map.mp this with ⟨g2, hg2, hfst2⟩
  unfold groupbyMV sortAsc at hg2
  rw [sortLe_mem] at hg2
  have : Cell.na ∈ (groupSums st c).map Prod.fst := hfst2 ▸ List.mem_map_of_mem _ hg2
  rw [groupSums_fst] at this
  exact na_not_mem_groupKeys st c this

theorem na_not_mem_pctByValDesc (st : Analyzer) (c : String) :
    Cell.na ∉ (pctByValDesc st c).map Prod.fst := by
  intro hmem
  rcases List.mem_map.mp hmem with ⟨g, hg, hfst⟩
  unfold pctByValDesc sortDesc at hg
  rw [sortLe_mem] at hg
  have : Cell.na ∈ (pctOf (groupbyMV st c)).map Prod.fst :=
    hfst ▸ List.mem_map_of_mem _ hg
  rw [pctOf_fst] at this
  rcases List.mem_map.mp this with ⟨g2, hg2, hfst2⟩
  unfold groupbyMV sortAsc at hg2
  rw [sortLe_mem] at hg2
  have : Cell.na ∈ (groupSums st c).map Prod.fst := hfst2 ▸ List.mem_map_of_mem _ hg2
  rw [groupSums_fst] at this
  exact na_not_mem_groupKeys st c this

theorem pctByValDesc_length (st : Analyzer) (c : String) :
    (pctByValDesc st c).length = (groupKeys st c).length := by
  unfold pctByValDesc groupbyMV sortDesc sortAsc
  rw [sortLe_length, pctOf_length, sortLe_length, groupSums_length]

/-! ### Pointwise row transport through a column write -/

theorem setCol_map_pointwise (st : Analyzer) (c : String) (g : List Cell → Cell)
    (hwf : wf st) :
    ∃ u : List Cell → List Cell,
      (setCol st c (st.rows.map g)).rows = st.rows.map u ∧
      ∀ r ∈ st.rows,
        cellAt (setCol st c (st.rows.map g)).cols (u r) c = g r ∧
        (∀ d, d ≠ c →
          cellAt (setCol st c (st.rows.map g)).cols (u r) d = cellAt st.cols r d) ∧
        (u r).length = (setCol st c (st.rows.map g)).cols.length := by
  by_cases hc : c ∈ st.cols
  · have hcols : (setCol st c (st.rows.map g)).cols = st.cols := by
      unfold setCol; rw [if_pos hc]
    refine ⟨fun r => setRowCell st.cols r c (g r), ?_, ?_⟩
    · rw [setCol_rows_of_map, if_pos hc]
    · intro r hr
      refine ⟨?_, ?_, ?_⟩
      · rw [hcols]; exact cellAt_setRowCell_self c (g r) st.cols r hc (hwf r hr)
      · intro d hd
        rw [hcols]; exact cellAt_setRowCell_ne c d (g r) hd st.cols r
      · rw [hcols, length_setRowCell]; exact hwf r hr
  · have hcols : (setCol st c (st.rows.map g)).cols = st.cols ++ [c] := by
      unfold setCol; rw [if_neg hc]
    refine ⟨fun r => r ++ [g r], ?_, ?_⟩
    · rw [setCol_rows_of_map, if_neg hc]
    · intro r hr
      refine ⟨?_, ?_, ?_⟩
      · rw [hcols]; exact cellAt_append_self c (g r) st.cols r hc (hwf r hr)
      · intro d hd
        rw [hcols]; exact cellAt_append_ne c d (g r) hd st.cols r (hwf r hr)
      · rw [hcols]; simp [hwf r hr]

/-! ### Lemmas about the composite rating pass -/

theorem agencies_not_in_CR :
    ∀ p ∈ agencyOrder, occursIn p "Composite Rating" = false := by decide

theorem occursIn_Rating_CR : occursIn "Rating" "Composite Rating" = true := by decide

theorem combined_rating_snd_eq (st : Analyzer) (hne : st.ratingCols ≠ []) :
    (combined_rating st).2 = setCol st "Composite Rating" (st.rows.map (pick_rating st)) := by
  unfold combined_rating
  rw [if_neg hne]

theorem combined_rating_fst_eq (st : Analyzer) (hne : st.ratingCols ≠ []) :
    (combined_rating st).1 = some "Composite Rating" := by
  unfold combined_rating
  rw [if_neg hne]

theorem combined_rating_snd_nil (st : Analyzer) (hnil : st.ratingCols = []) :
    (combined_rating st).2 = st := by
  unfold combined_rating
  rw [if_pos hnil]

theorem pick_rating_cols_congr (st st2 : Analyzer) (row row2 : List Cell)
    (hrc : st2.ratingCols = st.ratingCols)
    (hcell : ∀ c ∈ st.ratingCols, (∃ p ∈ agencyOrder, occursIn p c = true) →
      cellAt st2.cols row2 c = cellAt st.cols row c) :
    pick_rating st2 row2 = pick_rating st row := by
  unfold pick_rating
  rw [hrc]
  have hout : ∀ p ∈ agencyOrder,
      st.ratingCols.findSome? (fun c =>
        if occursIn p c then
          match cellAt st2.cols row2 c with
          | Cell.na => none
          | v => some v
        else none)
      = st.ratingCols.findSome? (fun c =>
        if occursIn p c then
          match cellAt st.cols row c with
          | Cell.na => none
          | v => some v
        else none) := by
    intro p hp
    apply findSome?_congr
    intro c hc
    by_cases ho : occursIn p c
    · rw [hcell c hc ⟨p, hp, ho⟩]
    · simp [ho]
  rw [findSome?_congr _ _ agencyOrder (fun p hp => hout p hp)]

theorem pick_rating_ne_na_of_findSome (st : Analyzer) (row : List Cell) (v : Cell)
    (h : agencyOrder.findSome? (fun p =>
      st.ratingCols.findSome? (fun c =>
        if occursIn p c then
          match cellAt st.cols row c with
          | Cell.na => none
          | v => some v
        else none)) = some v) :
    ∃ p ∈ agencyOrder, ∃ c ∈ st.ratingCols,
      occursIn p c = true ∧ cellAt st.cols row c = v ∧ v ≠ Cell.na := by
  rcases List.exists_of_findSome?_eq_some h with ⟨p, hp, hinner⟩
  rcases List.exists_of_findSome?_eq_some hinner with ⟨c, hc, hcell⟩
  by_cases ho : occursIn p c
  · rw [if_pos ho] at hcell
    refine ⟨p, hp, c, hc, ho, ?_⟩
    cases hcc : cellAt st.cols row c with
    | na => rw [hcc] at hcell; exact absurd hcell (by simp)
    | str s =>
      rw [hcc] at hcell; simp at hcell
      exact ⟨hcell, by rw [← hcell]; simp⟩
    | num q =>
      rw [hcc] at hcell; simp at hcell
      exact ⟨hcell, by rw [← hcell]; simp⟩
    | date d =>
      rw [hcc] at hcell; simp at hcell
      exact ⟨hcell, by rw [← hcell]; simp⟩
  · rw [if_neg ho] at hcell
    exact absurd hcell (by simp)

theorem pick_rating_na_iff (st : Analyzer) (row : List Cell) :
    pick_rating st row = Cell.na ↔
      ∀ p ∈ agencyOrder, ∀ c ∈ st.ratingCols, occursIn p c = true →
        cellAt st.cols row c = Cell.na := by
  constructor
  · intro hna p hp c hc ho
    unfold pick_rating at hna
    cases hfs : agencyOrder.findSome? (fun p =>
        st.ratingCols.findSome? (fun c =>
          if occursIn p c then
            match cellAt st.cols row c with
            | Cell.na => none
            | v => some v
          else none)) with
    | some v =>
      rcases pick_rating_ne_na_of_findSome st row v hfs with ⟨_, _, _, _, _, _, hvna⟩
      rw [hfs] at hna
      simp at hna
      exact absurd hna hvna
    | none =>
      have hall := List.findSome?_eq_none_iff.mp hfs p hp
      have hcall := List.findSome?_eq_none_iff.mp hall c hc
      rw [if_pos ho] at hcall
      cases hcc : cellAt st.cols row c with
      | na => rfl
      | str s => rw [hcc] at hcall; exact absurd hcall (by simp)
      | num q => rw [hcc] at hcall; exact absurd hcall (by simp)
      | date d => rw [hcc] at hcall; exact absurd hcall (by simp)
  · intro hall
    unfold pick_rating
    cases hfs : agencyOrder.findSome? (fun p =>
        st.ratingCols.findSome? (fun c =>
          if occursIn p c then
            match cellAt st.cols row c with
            | Cell.na => none
            | v => some v
          else none)) with
    | some v =>
      rcases pick_rating_ne_na_of_findSome st row v hfs with ⟨p, hp, c, hc, ho, hcell, hvna⟩
      exact absurd (hcell.symm.trans (hall p hp c hc ho)) hvna
    | none => rfl

theorem pick_rating_exists_of_ne_na (st : Analyzer) (row : List Cell)
    (h : pick_rating st row ≠ Cell.na) :
    ∃ p ∈ agencyOrder, ∃ c ∈ st.ratingCols,
      occursIn p c = true ∧ cellAt st.cols row c = pick_rating st row := by
  unfold pick_rating at h ⊢
  cases hfs : agencyOrder.findSome? (fun p =>
      st.ratingCols.findSome? (fun c =>
        if occursIn p c then
          match cellAt st.cols row c with
          | Cell.na => none
          | v => some v
        else none)) with
  | some v =>
    rcases pick_rating_ne_na_of_findSome st row v hfs with ⟨p, hp, c, hc, ho, hcell, hvna⟩
    exact ⟨p, hp, c, hc, ho, by simpa using hcell⟩
  | none => rw [hfs] at h; exact absurd rfl h

theorem CR_ne_of_agency (c : String) (p : String) (hp : p ∈ agencyOrder)
    (ho : occursIn p c = true) : c ≠ "Composite Rating" := by
  intro he
  subst he
  rw [agencies_not_in_CR p hp] at ho
  exact absurd ho (by simp)

theorem pick_rating_after_CR (st : Analyzer) (hwf : wf st) :
    ((combined_rating st).2.rows.map (pick_rating (combined_rating st).2))
      = st.rows.map (pick_rating st) := by
  by_cases hnil : st.ratingCols = []
  · rw [combined_rating_snd_nil st hnil]
  · rw [combined_rating_snd_eq st hnil]
    rcases setCol_map_pointwise st "Composite Rating" (pick_rating st) hwf
      with ⟨u, hrows, hpt⟩
    rw [hrows, List.map_map]
    apply List.map_congr_left
    intro r hr
    show pick_rating (setCol st "Composite Rating" (st.rows.map (pick_rating st))) (u r)
        = pick_rating st r
    apply pick_rating_cols_congr
    · exact setCol_ratingCols st "Composite Rating" (st.rows.map (pick_rating st))
    · intro c hc hex
      rcases hex with ⟨p, hp, ho⟩
      exact (hpt r hr).2.1 c (CR_ne_of_agency c p hp ho)

theorem setCol_self_id (st : Analyzer) (c : String) (hc : c ∈ st.cols) :
    setCol st c (st.rows.map (fun r => cellAt st.cols r c)) = st := by
  unfold setCol
  rw [if_pos hc, zipWith_map_right]
  have hrows : st.rows.map (fun r => setRowCell st.cols r c (cellAt st.cols r c))
      = st.rows := by
    rw [List.map_congr_left (fun r _ => setRowCell_cellAt_id c st.cols r)]
    exact List.map_id _
  rw [hrows]

theorem combined_rating_CR_mem (st : Analyzer) (hne : st.ratingCols ≠ []) :
    "Composite Rating" ∈ (combined_rating st).2.cols := by
  rw [combined_rating_snd_eq st hne]
  unfold setCol
  split
  · assumption
  · exact List.mem_append_right _ (List.mem_singleton.mpr rfl)

theorem combined_rating_CR_col (st : Analyzer) (hwf : wf st)
    (hne : st.ratingCols ≠ []) :
    colCellsOf (combined_rating st).2 "Composite Rating"
      = st.rows.map (pick_rating st) := by
  rw [combined_rating_snd_eq st hne]
  exact colCells_setCol_map_self st "Composite Rating" (pick_rating st) hwf

theorem combined_rating_idem (st : Analyzer) (hwf : wf st) :
    (combined_rating (combined_rating st).2).2 = (combined_rating st).2 := by
  by_cases hnil : st.ratingCols = []
  · rw [combined_rating_snd_nil st hnil, combined_rating_snd_nil st hnil]
  · have hne1 : (combined_rating st).2.ratingCols ≠ [] := by
      rw [combined_rating_snd_eq st hnil, setCol_ratingCols]
      exact hnil
    have hCRcol := combined_rating_CR_col st hwf hnil
    rw [combined_rating_snd_eq _ hne1, pick_rating_after_CR st hwf, ← hCRcol]
    unfold colCellsOf
    exact setCol_self_id _ "Composite Rating" (combined_rating_CR_mem st hnil)

theorem combined_rating_frame (st : Analyzer) (hwf : wf st) (d : String)
    (hd : d ≠ "Composite Rating") :
    colCellsOf (combined_rating st).2 d = colCellsOf st d := by
  by_cases hnil : st.ratingCols = []
  · rw [combined_rating_snd_nil st hnil]
  · rw [combined_rating_snd_eq st hnil]
    exact colCells_setCol_map_ne st "Composite Rating" d (pick_rating st) hwf hd

theorem combined_rating_meta (st : Analyzer) :
    (combined_rating st).2.name = st.name ∧
    (combined_rating st).2.ratingCols = st.ratingCols ∧
    (combined_rating st).2.sectorCol = st.sectorCol ∧
    (combined_rating st).2.issuerCol = st.issuerCol ∧
    (combined_rating st).2.currencyCol = st.currencyCol := by
  by_cases hnil : st.ratingCols = []
  · rw [combined_rating_snd_nil st hnil]
    exact ⟨rfl, rfl, rfl, rfl, rfl⟩
  · rw [combined_rating_snd_eq st hnil]
    exact ⟨setCol_name _ _ _, setCol_ratingCols _ _ _, setCol_sectorCol _ _ _,
      setCol_issuerCol _ _ _, setCol_currencyCol _ _ _⟩

theorem combined_rating_rows_length (st : Analyzer) :
    (combined_rating st).2.rows.length = st.rows.length := by
  by_cases hnil : st.ratingCols = []
  · rw [combined_rating_snd_nil st hnil]
  · rw [combined_rating_snd_eq st hnil]
    exact rows_length_setCol_of_map st _ _

theorem combined_rating_wf (st : Analyzer) (hwf : wf st) :
    wf (combined_rating st).2 := by
  by_cases hnil : st.ratingCols = []
  · rw [combined_rating_snd_nil st hnil]; exact hwf
  · rw [combined_rating_snd_eq st hnil]
    exact wf_setCol_of_map st _ _ hwf

theorem totalMV_eq_colCells (st : Analyzer) :
    totalMV st = ((colCellsOf st "Market Value").map (fun x => x.toQ.getD 0)).sum := by
  unfold totalMV colCellsOf
  rw [mvSum_eq_map_sum, List.map_map]
  rfl

theorem combined_rating_totalMV (st : Analyzer) (hwf : wf st) :
    totalMV (combined_rating st).2 = totalMV st := by
  rw [totalMV_eq_colCells, totalMV_eq_colCells st,
    combined_rating_frame st hwf "Market Value" (by decide)]

theorem combined_rating_MV_mem (st : Analyzer) (hmv : "Market Value" ∈ st.cols) :
    "Market Value" ∈ (combined_rating st).2.cols := by
  by_cases hnil : st.ratingCols = []
  · rw [combined_rating_snd_nil st hnil]; exact hmv
  · rw [combined_rating_snd_eq st hnil]
    exact setCol_mem_cols st _ _ _ hmv

theorem combined_rating_MV_not_mem (st : Analyzer) (hmv : "Market Value" ∉ st.cols) :
    "Market Value" ∉ (combined_rating st).2.cols := by
  by_cases hnil : st.ratingCols = []
  · rw [combined_rating_snd_nil st hnil]; exact hmv
  · rw [combined_rating_snd_eq st hnil]
    intro hmem
    rcases setCol_cols_sub st _ _ _ hmem with h | h
    · exact hmv h
    · exact absurd h (by decide)

/-! ### Lemmas about the maturity bucket pass -/

theorem cutYears_mem (y : ℚ) (l : String) (h : cutYears y = some l) :
    l ∈ bucketLabels := by
  unfold cutYears at h
  split_ifs at h <;> simp at h <;> subst h <;> decide

theorem bucketLabels_str_nodup : (bucketLabels.map Cell.str).Nodup := by decide

theorem bucketCell_mem_iff (x : Cell) :
    (bucketCell x ∈ bucketLabels.map Cell.str) ↔ bucketCell x ≠ Cell.na := by
  cases x with
  | num y =>
    cases h : cutYears y with
    | some l =>
      have hl : l ∈ bucketLabels := cutYears_mem y l h
      have hb : bucketCell (Cell.num y) = Cell.str l := by
        show (match cutYears y with | some l => Cell.str l | none => Cell.na) = Cell.str l
        rw [h]
      rw [hb]
      constructor
      · intro _; simp
      · intro _; exact List.mem_map_of_mem Cell.str hl
    | none =>
      have hb : bucketCell (Cell.num y) = Cell.na := by
        show (match cutYears y with | some l => Cell.str l | none => Cell.na) = Cell.na
        rw [h]
      rw [hb]
      simp
  | na => simp [bucketCell]
  | str s => simp [bucketCell]
  | date d => simp [bucketCell]

theorem bucketState_pointwise (today : ℤ) (st : Analyzer) (hwf : wf st) :
    ∃ u : List Cell → List Cell,
      (bucketState today st).rows = st.rows.map u ∧
      ∀ r ∈ st.rows,
        cellAt (bucketState today st).cols (u r) "Maturity Bucket"
          = bucketCell (yearsFrom today (toDateCell (cellAt st.cols r "Maturity"))) ∧
        (∀ d, d ≠ "Maturity Bucket" → d ≠ "Years to Maturity" → d ≠ "Maturity Date" →
          cellAt (bucketState today st).cols (u r) d = cellAt st.cols r d) := by
  have hwf1 := wf_setCol_of_map st "Maturity Date"
    (fun r => toDateCell (cellAt st.cols r "Maturity")) hwf
  rcases setCol_map_pointwise st "Maturity Date"
    (fun r => toDateCell (cellAt st.cols r "Maturity")) hwf with ⟨u1, hrows1, hpt1⟩
  set st1 := setCol st "Maturity Date"
    (st.rows.map (fun r => toDateCell (cellAt st.cols r "Maturity"))) with hst1
  have hwf2 := wf_setCol_of_map st1 "Years to Maturity"
    (fun r => yearsFrom today (cellAt st1.cols r "Maturity Date")) hwf1
  rcases setCol_map_pointwise st1 "Years to Maturity"
    (fun r => yearsFrom today (cellAt st1.cols r "Maturity Date")) hwf1 with ⟨u2, hrows2, hpt2⟩
  set st2 := setCol st1 "Years to Maturity"
    (st1.rows.map (fun r => yearsFrom today (cellAt st1.cols r "Maturity Date"))) with hst2
  rcases setCol_map_pointwise st2 "Maturity Bucket"
    (fun r => bucketCell (cellAt st2.cols r "Years to Maturity")) hwf2 with ⟨u3, hrows3, hpt3⟩
  have hbs : bucketState today st = setCol st2 "Maturity Bucket"
      (st2.rows.map (fun r => bucketCell (cellAt st2.cols r "Years to Maturity"))) := rfl
  refine ⟨u3 ∘ u2 ∘ u1, ?_, ?_⟩
  · rw [hbs, hrows3, hrows2, hrows1, List.map_map, List.map_map]
    rfl
  · intro r hr
    have hr1 : u1 r ∈ st1.rows := by rw [hrows1]; exact List.mem_map_of_mem u1 hr
    have hr2 : u2 (u1 r) ∈ st2.rows := by rw [hrows2]; exact List.mem_map_of_mem u2 hr1
    constructor
    · rw [hbs]
      have h3 := (hpt3 (u2 (u1 r)) hr2).1
      simp only [Function.comp]
      rw [h3]
      have h2 := (hpt2 (u1 r) hr1).1
      rw [h2]
      have h1 := (hpt1 r hr).1
      rw [h1]
    · intro d hd3 hd2 hd1
      rw [hbs]
      have h3 := (hpt3 (u2 (u1 r)) hr2).2.1 d hd3
      simp only [Function.comp]
      rw [h3]
      have h2 := (hpt2 (u1 r) hr1).2.1 d hd2
      rw [h2]
      exact (hpt1 r hr).2.1 d hd1

theorem bucketState_wf (today : ℤ) (st : Analyzer) (hwf : wf st) :
    wf (bucketState today st) := by
  apply wf_setCol_of_map
  apply wf_setCol_of_map
  apply wf_setCol_of_map
  exact hwf

theorem bucketState_meta (today : ℤ) (st : Analyzer) :
    (bucketState today st).name = st.name ∧
    (bucketState today st).ratingCols = st.ratingCols ∧
    (bucketState today st).sectorCol = st.sectorCol ∧
    (bucketState today st).issuerCol = st.issuerCol ∧
    (bucketState today st).currencyCol = st.currencyCol := by
  unfold bucketState
  simp [setCol_name, setCol_ratingCols, setCol_sectorCol, setCol_issuerCol,
    setCol_currencyCol]

theorem bucketState_rows_length (today : ℤ) (st : Analyzer) :
    (bucketState today st).rows.length = st.rows.length := by
  unfold bucketState
  rw [rows_length_setCol_of_map, rows_length_setCol_of_map, rows_length_setCol_of_map]

theorem bucketState_frame (today : ℤ) (st : Analyzer) (hwf : wf st) (d : String)
    (hd3 : d ≠ "Maturity Bucket") (hd2 : d ≠ "Years to Maturity")
    (hd1 : d ≠ "Maturity Date") :
    colCellsOf (bucketState today st) d = colCellsOf st d := by
  unfold bucketState
  rw [colCells_setCol_map_ne _ _ _ _ (by
        apply wf_setCol_of_map; apply wf_setCol_of_map; exact hwf) hd3,
      colCells_setCol_map_ne _ _ _ _ (by apply wf_setCol_of_map; exact hwf) hd2,
      colCells_setCol_map_ne _ _ _ _ hwf hd1]

theorem bucketState_MV_mem (today : ℤ) (st : Analyzer)
    (hmv : "Market Value" ∈ st.cols) : "Market Value" ∈ (bucketState today st).cols := by
  unfold bucketState
  apply setCol_mem_cols
  apply setCol_mem_cols
  apply setCol_mem_cols
  exact hmv

theorem bucketState_totalMV (today : ℤ) (st : Analyzer) (hwf : wf st) :
    totalMV (bucketState today st) = totalMV st := by
  rw [totalMV_eq_colCells, totalMV_eq_colCells st,
    bucketState_frame today st hwf "Market Value" (by decide) (by decide) (by decide)]

theorem bucketGroups_snd_sum (today : ℤ) (st : Analyzer) (hwf : wf st) :
    ((bucketGroups today st).map Prod.snd).sum
      = (st.rows.map (fun r =>
          if (bucketCell (yearsFrom today (toDateCell (cellAt st.cols r "Maturity")))).isNa
          then 0 else (mvOf st r).getD 0)).sum := by
  rcases bucketState_pointwise today st hwf with ⟨u, hrows, hpt⟩
  unfold bucketGroups
  rw [List.map_map]
  have hstep : bucketLabels.map (Prod.snd ∘ fun l =>
      (Cell.str l, mvSum (bucketState today st)
        (keyRows (bucketState today st) "Maturity Bucket" (Cell.str l))))
      = (bucketLabels.map Cell.str).map (fun k =>
          (((bucketState today st).rows.filter
            (fun r => cellAt (bucketState today st).cols r "Maturity Bucket" == k)).map
            (fun r => (mvOf (bucketState today st) r).getD 0)).sum) := by
    rw [List.map_map]
    apply List.map_congr_left
    intro l _
    show mvSum (bucketState today st) (keyRows (bucketState today st) "Maturity Bucket" (Cell.str l)) = _
    rw [mvSum_eq_map_sum]
    rfl
  rw [hstep, partition_sum (fun r => cellAt (bucketState today st).cols r "Maturity Bucket")
    (fun r => (mvOf (bucketState today st) r).getD 0)
    (bucketLabels.map Cell.str) bucketLabels_str_nodup]
  rw [hrows, List.filter_map, List.map_map]
  rw [weight_filter_sum]
  apply congrArg
  apply List.map_congr_left
  intro r hr
  have hmb := (hpt r hr).1
  have hmv : cellAt (bucketState today st).cols (u r) "Market Value"
      = cellAt st.cols r "Market Value" :=
    (hpt r hr).2 "Market Value" (by decide) (by decide) (by decide)
  simp only [Function.comp]
  rw [hmb]
  unfold mvOf
  rw [hmv]
  by_cases hna : (bucketCell (yearsFrom today (toDateCell (cellAt st.cols r "Maturity")))).isNa
  · have : bucketCell (yearsFrom today (toDateCell (cellAt st.cols r "Maturity")))
        ∉ bucketLabels.map Cell.str := by
      intro hmem
      have := (bucketCell_mem_iff _).mp hmem
      rw [(Cell.isNa_iff _).mp hna] at this
      exact this rfl
    simp [this, hna]
  · have hne : bucketCell (yearsFrom today (toDateCell (cellAt st.cols r "Maturity")))
        ≠ Cell.na := by
      intro he
      rw [he] at hna
      exact hna rfl
    have : bucketCell (yearsFrom today (toDateCell (cellAt st.cols r "Maturity")))
        ∈ bucketLabels.map Cell.str := (bucketCell_mem_iff _).mpr hne
    simp [this, hna]

theorem combined_rating_eq_nil (st : Analyzer) (hnil : st.ratingCols = []) :
    combined_rating st = (none, st) := by
  unfold combined_rating
  rw [if_pos hnil]

theorem combined_rating_eq_cons (st : Analyzer) (hne : st.ratingCols ≠ []) :
    combined_rating st = (some "Composite Rating",
      setCol st "Composite Rating" (st.rows.map (pick_rating st))) := by
  unfold combined_rating
  rw [if_neg hne]

/-! ### Claim theorems -/

/-- C9: column resolution is pure and total, order-preserving (the
result is a sublist of the column list), matches exactly the columns
containing some alias as a case-insensitive substring, the primary
column is the first match or absent, and concretely "S&P Rating" is
recognized as a rating column and "FX Currency Code" as a currency
column. -/
theorem c9_find_cols_resolution :
    (∀ cols aliases : List String, (findCols cols aliases).Sublist cols) ∧
    (∀ (cols aliases : List String) (c : String),
      c ∈ findCols cols aliases ↔ c ∈ cols ∧ ∃ a ∈ aliases, occursIn a c = true) ∧
    (∀ cols aliases : List String,
      primaryCol (findCols cols aliases) = none ↔
        ∀ c ∈ cols, ∀ a ∈ aliases, occursIn a c = false) ∧
    (∀ (cols aliases : List String) (c : String),
      primaryCol (findCols cols aliases) = some c →
        c ∈ cols ∧ ∃ a ∈ aliases, occursIn a c = true) ∧
    (mkAnalyzer ["S&P Rating", "FX Currency Code", "Market Value"] [] "P").ratingCols
      = ["S&P Rating"] ∧
    (mkAnalyzer ["S&P Rating", "FX Currency Code", "Market Value"] [] "P").currencyCol
      = some "FX Currency Code" := by
  have hmem : ∀ (cols aliases : List String) (c : String),
      c ∈ findCols cols aliases ↔ c ∈ cols ∧ ∃ a ∈ aliases, occursIn a c = true := by
    intro cols aliases c
    unfold findCols
    rw [List.mem_filter, List.any_eq_true]
  refine ⟨fun cols aliases => List.filter_sublist cols, hmem, ?_, ?_, by decide, by decide⟩
  · intro cols aliases
    unfold primaryCol
    rw [List.head?_eq_none_iff]
    constructor
    · intro hnil c hc a ha
      have hni := List.filter_eq_nil_iff.mp hnil c hc
      cases hoc : occursIn a c
      · rfl
      · exact absurd (List.any_eq_true.mpr ⟨a, ha, hoc⟩) hni
    · intro hall
      apply List.filter_eq_nil_iff.mpr
      intro c hc
      rw [List.any_eq_true]
      rintro ⟨a, ha, hoc⟩
      rw [hall c hc a ha] at hoc
      exact absurd hoc (by simp)
  · intro cols aliases c hhead
    have hc : c ∈ findCols cols aliases := by
      apply List.mem_of_mem_head?
      unfold primaryCol at hhead
      rw [hhead]
      rfl
    exact (hmem cols aliases c).mp hc

/-- Witness for C9 at concrete inputs. -/
theorem c9_find_cols_resolution_witness :
    "S&P Rating" ∈ (["S&P Rating"] : List String)
      ∧ ∃ a ∈ ratingAliases, occursIn a "S&P Rating" = true :=
  (c9_find_cols_resolution.2.1 ["S&P Rating"] ratingAliases "S&P Rating").mp (by decide)

/-- C8: the KRD profile keeps the tenor columns in original column
order, each value is the market-value-weighted average
`sum(contribution_i * mv_i) / sum(mv_i)` over all rows, a table without
KRD columns yields an empty result, and the spec's concrete example
yields 0.175 = 7/40 for the 2Y tenor. -/
theorem c8_krd_profile :
    (∀ st : Analyzer, (krdCols st).Sublist st.cols) ∧
    (∀ (st : Analyzer) (l : List (String × ℚ)), krd_profile st = Except.ok l →
      l.map Prod.fst = krdCols st ∧ ∀ p ∈ l, p.2 = prodSum st p.1 / totalMV st) ∧
    (∀ st : Analyzer, krdCols st = [] → krd_profile st = Except.ok []) ∧
    krd_profile tblKrd = Except.ok [("KRD Contribution 2Y", 7/40)] ∧
    ((7 : ℚ)/40 = (1/10 * 100 + 1/5 * 300) / (100 + 300)) := by
  refine ⟨fun st => List.filter_sublist st.cols, ?_, ?_, by decide, by decide⟩
  · intro st l hok
    unfold krd_profile at hok
    by_cases hnil : krdCols st = []
    · rw [if_pos hnil] at hok
      have hl : l = [] := by
        cases hok
        rfl
      subst hl
      rw [hnil]
      exact ⟨rfl, by intro p hp; exact absurd hp (List.not_mem_nil p)⟩
    · rw [if_neg hnil] at hok
      by_cases hmv : "Market Value" ∈ st.cols
      · rw [if_pos hmv] at hok
        have hl : l = (krdCols st).map (fun c => (c, prodSum st c / totalMV st)) := by
          cases hok
          rfl
        subst hl
        constructor
        · rw [List.map_map]
          exact List.map_id _
        · intro p hp
          rcases List.mem_map.mp hp with ⟨c, _, he⟩
          rw [← he]
      · rw [if_neg hmv] at hok
        exact absurd hok (by simp)
  · intro st hnil
    unfold krd_profile
    rw [if_pos hnil]

/-- Witness for C8 at the spec's concrete example. -/
theorem c8_krd_profile_witness :
    ([("KRD Contribution 2Y", (7 : ℚ)/40)]).map Prod.fst = krdCols tblKrd ∧
    ∀ p ∈ [("KRD Contribution 2Y", (7 : ℚ)/40)],
      p.2 = prodSum tblKrd p.1 / totalMV tblKrd :=
  c8_krd_profile.2.1 tblKrd [("KRD Contribution 2Y", (7 : ℚ)/40)] (by decide)

/-- C3: the composite rating is missing exactly when no agency-matching
rating column holds a value, any non-missing composite comes from an
agency-matching rating column, and the spec's example row (Moody
absent, S&P "A", Fitch "AA") yields "AA" under either column order;
a row where no agency yields a value gets a missing composite. -/
theorem c3_composite_priority :
    (∀ (st : Analyzer) (row : List Cell),
      pick_rating st row = Cell.na ↔
        ∀ p ∈ agencyOrder, ∀ c ∈ st.ratingCols, occursIn p c = true →
          cellAt st.cols row c = Cell.na) ∧
    (∀ (st : Analyzer) (row : List Cell), pick_rating st row ≠ Cell.na →
      ∃ p ∈ agencyOrder, ∃ c ∈ st.ratingCols,
        occursIn p c = true ∧ cellAt st.cols row c = pick_rating st row) ∧
    getColVals (combined_rating tblAgencyA).2 "Composite Rating"
      = some [Cell.str "AA"] ∧
    getColVals (combined_rating tblAgencyB).2 "Composite Rating"
      = some [Cell.str "AA"] ∧
    pick_rating tblAgencyA [Cell.na, Cell.na, Cell.na, Cell.num 100] = Cell.na :=
  ⟨pick_rating_na_iff, pick_rating_exists_of_ne_na, by decide, by decide, by decide⟩

/-- Witness for C3: the non-missing composite "AA" of the example row
comes from an agency-matching rating column. -/
theorem c3_composite_priority_witness :
    ∃ p ∈ agencyOrder, ∃ c ∈ tblAgencyA.ratingCols,
      occursIn p c = true ∧
      cellAt tblAgencyA.cols [Cell.na, Cell.str "A", Cell.str "AA", Cell.num 100] c
        = pick_rating tblAgencyA [Cell.na, Cell.str "A", Cell.str "AA", Cell.num 100] :=
  c3_composite_priority.2.1 tblAgencyA
    [Cell.na, Cell.str "A", Cell.str "AA", Cell.num 100] (by decide)

/-- C7: with a Market Value column present, every query method whose
optional column is absent returns its well-defined empty or null-field
result and none of the query methods fails; the absence of the Market
Value column itself is a hard failure (KeyError) surfaced by `summary`. -/
theorem c7_graceful_degradation :
    ∀ (st : Analyzer) (today : ℤ) (n topN : ℕ),
      ("Market Value" ∈ st.cols →
        ((st.cols.find? (fun c => occursIn "duration" c) = none →
            duration st = Except.ok (st.name, none)) ∧
         (duration st).isOk = true ∧
         (st.sectorCol = none → sector_exposure st = Except.ok ⟨none, []⟩) ∧
         (sector_exposure st).isOk = true ∧
         (st.currencyCol = none →
            currency_exposure st = Except.ok ⟨some "No Currency Column Found", []⟩) ∧
         (currency_exposure st).isOk = true ∧
         (st.issuerCol = none →
            top_holdings st n = Except.ok ⟨some "No Issuer Column Found", []⟩) ∧
         (top_holdings st n).isOk = true ∧
         (st.ratingCols = [] →
            (credit_distribution st).1 = Except.ok ⟨none, []⟩ ∧
            (credit_distribution st).2 = st) ∧
         ((credit_distribution st).1).isOk = true ∧
         (krdCols st = [] → krd_profile st = Except.ok []) ∧
         (krd_profile st).isOk = true ∧
         ("Maturity" ∉ st.cols →
            maturity_buckets today st
              = (Except.ok ⟨some "No Maturity Column Found", []⟩, st)) ∧
         ((maturity_buckets today st).1).isOk = true ∧
         (rating_distributions st).isOk = true ∧
         (categorical_breakdowns st topN).isOk = true ∧
         (summary today st).isOk = true)) ∧
      ("Market Value" ∉ st.cols →
        summary today st = Except.error "KeyError: Market Value") := by
  intro st today n topN
  constructor
  · intro hmv
    refine ⟨?_, ?_, ?_, ?_, ?_, ?_, ?_, ?_, ?_, ?_, ?_, ?_, ?_, ?_, ?_, ?_, ?_⟩
    · intro hdur
      unfold duration
      rw [hdur]
    · unfold duration
      cases st.cols.find? (fun c => occursIn "duration" c) with
      | some c => simp [hmv, Except.isOk, Except.toBool]
      | none => rfl
    · intro hsec
      unfold sector_exposure
      rw [hsec]
    · unfold sector_exposure
      cases st.sectorCol with
      | some c => simp [hmv, Except.isOk, Except.toBool]
      | none => rfl
    · intro hcur
      unfold currency_exposure
      rw [hcur]
    · unfold currency_exposure
      cases st.currencyCol with
      | some c => simp [hmv, Except.isOk, Except.toBool]
      | none => rfl
    · intro hiss
      unfold top_holdings
      rw [hiss]
    · unfold top_holdings
      cases st.issuerCol with
      | some c => simp [hmv, Except.isOk, Except.toBool]
      | none => rfl
    · intro hrc
      unfold credit_distribution
      rw [combined_rating_eq_nil st hrc]
      exact ⟨rfl, rfl⟩
    · unfold credit_distribution
      by_cases hrc : st.ratingCols = []
      · rw [combined_rating_eq_nil st hrc]
        rfl
      · rw [combined_rating_eq_cons st hrc]
        have hmem : "Market Value"
            ∈ (setCol st "Composite Rating" (st.rows.map (pick_rating st))).cols :=
          setCol_mem_cols st _ _ _ hmv
        simp [hmem, Except.isOk, Except.toBool]
    · intro hk
      unfold krd_profile
      rw [if_pos hk]
    · unfold krd_profile
      by_cases hk : krdCols st = []
      · rw [if_pos hk]; rfl
      · rw [if_neg hk, if_pos hmv]; rfl
    · intro hmat
      unfold maturity_buckets
      rw [if_neg hmat]
    · unfold maturity_buckets
      by_cases hmat : "Maturity" ∈ st.cols
      · rw [if_pos hmat, if_pos (bucketState_MV_mem today st hmv)]
        rfl
      · rw [if_neg hmat]; rfl
    · unfold rating_distributions
      by_cases hrc : st.ratingCols = []
      · rw [if_pos hrc]; rfl
      · rw [if_neg hrc, if_pos hmv]; rfl
    · unfold categorical_breakdowns
      by_cases hcs : (st.cols.filter (isObjectCol st)).filter
          (fun c => !(c == "Issuer Name" || c == "Description")) = []
      · rw [if_pos hcs]; rfl
      · rw [if_neg hcs, if_pos hmv]; rfl
    · unfold summary
      rw [if_pos hmv]; rfl
  · intro hmv
    unfold summary
    rw [if_neg hmv]

/-- Witness for C7 at a table holding only a Market Value column. -/
theorem c7_graceful_degradation_witness :
    duration tblBare = Except.ok ("P", none) ∧
    sector_exposure tblBare = Except.ok ⟨none, []⟩ ∧
    currency_exposure tblBare = Except.ok ⟨some "No Currency Column Found", []⟩ ∧
    top_holdings tblBare 10 = Except.ok ⟨some "No Issuer Column Found", []⟩ ∧
    (credit_distribution tblBare).1 = Except.ok ⟨none, []⟩ ∧
    krd_profile tblBare = Except.ok [] ∧
    (maturity_buckets 0 tblBare).1 = Except.ok ⟨some "No Maturity Column Found", []⟩ := by
  have h := (c7_graceful_degradation tblBare 0 10 10).1 (by decide)
  exact ⟨h.1 (by decide), h.2.2.1 (by decide), h.2.2.2.2.1 (by decide),
    h.2.2.2.2.2.2.1 (by decide), (h.2.2.2.2.2.2.2.2.1 (by decide)).1,
    h.2.2.2.2.2.2.2.2.2.2.1 (by decide),
    by rw [h.2.2.2.2.2.2.2.2.2.2.2.2.1 (by decide)]⟩

/-- C10: the resolved role-column sets are fields fixed at
construction: they survive `combined_rating` and `maturity_buckets`,
`rating_distributions` answers for exactly the construction-time rating
columns, and the cached "Composite Rating" column — although it matches
the rating aliases and is present in the mutated table — never joins
the resolved rating columns. -/
theorem c10_resolution_fixed_at_construction :
    (∀ (dfCols : List String) (dfRows : List (List Cell)) (name : String),
      (mkAnalyzer dfCols dfRows name).ratingCols
        = findCols (mkAnalyzer dfCols dfRows name).cols ratingAliases) ∧
    (∀ (st : Analyzer) (today : ℤ),
      ((maturity_buckets today (combined_rating st).2).2.ratingCols = st.ratingCols ∧
       (maturity_buckets today (combined_rating st).2).2.sectorCol = st.sectorCol ∧
       (maturity_buckets today (combined_rating st).2).2.issuerCol = st.issuerCol ∧
       (maturity_buckets today (combined_rating st).2).2.currencyCol = st.currencyCol) ∧
      (∀ l, rating_distributions (maturity_buckets today (combined_rating st).2).2
          = Except.ok l → l.map Prod.fst = st.ratingCols)) ∧
    (∀ st : Analyzer, st.ratingCols ≠ [] → "Composite Rating" ∉ st.cols →
      "Composite Rating" ∈ (combined_rating st).2.cols ∧
      "Composite Rating" ∈ findCols (combined_rating st).2.cols ratingAliases ∧
      (st.ratingCols = findCols st.cols ratingAliases →
        "Composite Rating" ∉ (combined_rating st).2.ratingCols)) := by
  have hmat_meta : ∀ (st1 : Analyzer) (today : ℤ),
      (maturity_buckets today st1).2.ratingCols = st1.ratingCols ∧
      (maturity_buckets today st1).2.sectorCol = st1.sectorCol ∧
      (maturity_buckets today st1).2.issuerCol = st1.issuerCol ∧
      (maturity_buckets today st1).2.currencyCol = st1.currencyCol := by
    intro st1 today
    unfold maturity_buckets
    by_cases hmat : "Maturity" ∈ st1.cols
    · rw [if_pos hmat]
      have hm := bucketState_meta today st1
      exact ⟨hm.2.1, hm.2.2.1, hm.2.2.2.1, hm.2.2.2.2⟩
    · rw [if_neg hmat]
      exact ⟨rfl, rfl, rfl, rfl⟩
  refine ⟨fun dfCols dfRows name => rfl, ?_, ?_⟩
  · intro st today
    have hcr := combined_rating_meta st
    have hm := hmat_meta (combined_rating st).2 today
    have hrc : (maturity_buckets today (combined_rating st).2).2.ratingCols
        = st.ratingCols := by rw [hm.1, hcr.2.1]
    refine ⟨⟨hrc, by rw [hm.2.1, hcr.2.2.1], by rw [hm.2.2.1, hcr.2.2.2.1],
      by rw [hm.2.2.2, hcr.2.2.2.2]⟩, ?_⟩
    · intro l hok
      unfold rating_distributions at hok
      by_cases hnil : (maturity_buckets today (combined_rating st).2).2.ratingCols = []
      · rw [if_pos hnil] at hok
        have hl : l = [] := by cases hok; rfl
        subst hl
        rw [← hrc, hnil]
        rfl
      · rw [if_neg hnil] at hok
        by_cases hmv : "Market Value"
            ∈ (maturity_buckets today (combined_rating st).2).2.cols
        · rw [if_pos hmv] at hok
          have hl : l = (maturity_buckets today (combined_rating st).2).2.ratingCols.map
              (fun c => (c, pctByKeyAsc (maturity_buckets today (combined_rating st).2).2 c)) := by
            cases hok; rfl
          subst hl
          rw [List.map_map, ← hrc]
          exact List.map_id _
        · rw [if_neg hmv] at hok
          exact absurd hok (by simp)
  · intro st hne hnotmem
    have hcrmem := combined_rating_CR_mem st hne
    refine ⟨hcrmem, ?_, ?_⟩
    · unfold findCols
      apply List.mem_filter.mpr
      refine ⟨hcrmem, List.any_eq_true.mpr ⟨"Rating", by decide, occursIn_Rating_CR⟩⟩
    · intro hfix hmem
      rw [(combined_rating_meta st).2.1, hfix] at hmem
      unfold findCols at hmem
      exact hnotmem (List.mem_filter.mp hmem).1

/-- Witness for C10 at a concrete constructed analyzer. -/
theorem c10_resolution_fixed_witness :
    "Composite Rating" ∈ (combined_rating tblRich).2.cols ∧
    "Composite Rating" ∈ findCols (combined_rating tblRich).2.cols ratingAliases ∧
    ("Composite Rating" ∉ (combined_rating tblRich).2.ratingCols) := by
  have h := c10_resolution_fixed_at_construction.2.2 tblRich (by decide) (by decide)
  exact ⟨h.1, h.2.1, h.2.2 (by decide)⟩

theorem cutYears_eq_03 (y : ℚ) : cutYears y = some "0-3y" ↔ 0 ≤ y ∧ y < 3 := by
  unfold cutYears
  split_ifs with h1 h2 h3 h4 h5
  · exact iff_of_true rfl h1
  · exact iff_of_false (by simp) h1
  · exact iff_of_false (by simp) h1
  · exact iff_of_false (by simp) h1
  · exact iff_of_false (by simp) h1
  · exact iff_of_false (by simp) h1

theorem cutYears_eq_35 (y : ℚ) : cutYears y = some "3-5y" ↔ 3 ≤ y ∧ y < 5 := by
  unfold cutYears
  split_ifs with h1 h2 h3 h4 h5
  · exact iff_of_false (by simp) (by rintro ⟨ha, hb⟩; linarith [h1.2])
  · exact iff_of_true rfl h2
  · exact iff_of_false (by simp) h2
  · exact iff_of_false (by simp) h2
  · exact iff_of_false (by simp) h2
  · exact iff_of_false (by simp) h2

theorem cutYears_eq_510 (y : ℚ) : cutYears y = some "5-10y" ↔ 5 ≤ y ∧ y < 10 := by
  unfold cutYears
  split_ifs with h1 h2 h3 h4 h5
  · exact iff_of_false (by simp) (by rintro ⟨ha, hb⟩; linarith [h1.2])
  · exact iff_of_false (by simp) (by rintro ⟨ha, hb⟩; linarith [h2.2])
  · exact iff_of_true rfl h3
  · exact iff_of_false (by simp) h3
  · exact iff_of_false (by simp) h3
  · exact iff_of_false (by simp) h3

theorem cutYears_eq_1030 (y : ℚ) : cutYears y = some "10-30y" ↔ 10 ≤ y ∧ y < 30 := by
  unfold cutYears
  split_ifs with h1 h2 h3 h4 h5
  · exact iff_of_false (by simp) (by rintro ⟨ha, hb⟩; linarith [h1.2])
  · exact iff_of_false (by simp) (by rintro ⟨ha, hb⟩; linarith [h2.2])
  · exact iff_of_false (by simp) (by rintro ⟨ha, hb⟩; linarith [h3.2])
  · exact iff_of_true rfl h4
  · exact iff_of_false (by simp) h4
  · exact iff_of_false (by simp) h4

theorem cutYears_eq_30plus (y : ℚ) : cutYears y = some "30y+" ↔ 30 ≤ y ∧ y < 100 := by
  unfold cutYears
  split_ifs with h1 h2 h3 h4 h5
  · exact iff_of_false (by simp) (by rintro ⟨ha, hb⟩; linarith [h1.2])
  · exact iff_of_false (by simp) (by rintro ⟨ha, hb⟩; linarith [h2.2])
  · exact iff_of_false (by simp) (by rintro ⟨ha, hb⟩; linarith [h3.2])
  · exact iff_of_false (by simp) (by rintro ⟨ha, hb⟩; linarith [h4.2])
  · exact iff_of_true rfl h5
  · exact iff_of_false (by simp) h5

theorem cutYears_eq_none (y : ℚ) : cutYears y = none ↔ y < 0 ∨ 100 ≤ y := by
  unfold cutYears
  split_ifs with h1 h2 h3 h4 h5
  · exact iff_of_false (by simp)
      (by rintro (h | h) <;> [linarith [h1.1]; linarith [h1.2]])
  · exact iff_of_false (by simp)
      (by rintro (h | h) <;> [linarith [h2.1]; linarith [h2.2]])
  · exact iff_of_false (by simp)
      (by rintro (h | h) <;> [linarith [h3.1]; linarith [h3.2]])
  · exact iff_of_false (by simp)
      (by rintro (h | h) <;> [linarith [h4.1]; linarith [h4.2]])
  · exact iff_of_false (by simp)
      (by rintro (h | h) <;> [linarith [h5.1]; linarith [h5.2]])
  · constructor
    · intro _
      by_cases hy : y < 0
      · exact Or.inl hy
      · right
        have h0 : 0 ≤ y := le_of_not_lt hy
        have t1 : 3 ≤ y := by by_contra hc; push_neg at hc; exact h1 ⟨h0, hc⟩
        have t2 : 5 ≤ y := by by_contra hc; push_neg at hc; exact h2 ⟨t1, hc⟩
        have t3 : 10 ≤ y := by by_contra hc; push_neg at hc; exact h3 ⟨t2, hc⟩
        have t4 : 30 ≤ y := by by_contra hc; push_neg at hc; exact h4 ⟨t3, hc⟩
        by_contra hc
        push_neg at hc
        exact h5 ⟨t4, hc⟩
    · intro _; rfl

theorem credit_distribution_snd (st : Analyzer) :
    (credit_distribution st).2 = (combined_rating st).2 := by
  unfold credit_distribution
  rcases hcr : combined_rating st with ⟨f, st1⟩
  cases f <;> rfl

/-- C1 counterexample: the code bins years-to-maturity with
`bins = [0, 3, 5, 10, 30, 100]`, so a row 100 years out (y = 100 ≥ 30)
falls in no bucket at all — not in "30y+" — and is excluded from both
the numerator and the denominator: the 1-year row alone carries 100%. -/
theorem c1_counterexample :
    (30 : ℚ) ≤ 100 ∧ cutYears (100 : ℚ) = none ∧
    (maturity_buckets 0 tblFarMaturity).1
      = Except.ok ⟨none, [(Cell.str "0-3y", 100), (Cell.str "3-5y", 0),
          (Cell.str "5-10y", 0), (Cell.str "10-30y", 0), (Cell.str "30y+", 0)]⟩ :=
  ⟨by decide, by decide, by decide⟩

/-- C1 (amended): the buckets are half-open and lower-inclusive with
boundaries [0,3), [3,5), [5,10), [10,30) and [30,100); years-to-maturity
below 0 or at least 100 falls outside every bucket, and such rows are
excluded from both the numerator and the denominator (the grand total
counts exactly the rows whose years value lands in a bucket). -/
theorem c1_maturity_buckets_amended :
    (∀ y : ℚ,
      (cutYears y = some "0-3y" ↔ 0 ≤ y ∧ y < 3) ∧
      (cutYears y = some "3-5y" ↔ 3 ≤ y ∧ y < 5) ∧
      (cutYears y = some "5-10y" ↔ 5 ≤ y ∧ y < 10) ∧
      (cutYears y = some "10-30y" ↔ 10 ≤ y ∧ y < 30) ∧
      (cutYears y = some "30y+" ↔ 30 ≤ y ∧ y < 100) ∧
      (cutYears y = none ↔ y < 0 ∨ 100 ≤ y)) ∧
    cutYears (29/10) = some "0-3y" ∧ cutYears 3 = some "3-5y" ∧
    cutYears (-1/2) = none ∧
    (∀ (today : ℤ) (st : Analyzer), wf st →
      ((bucketGroups today st).map Prod.snd).sum
        = (st.rows.map (fun r =>
            if (bucketCell (yearsFrom today (toDateCell (cellAt st.cols r "Maturity")))).isNa
            then 0 else (mvOf st r).getD 0)).sum) := by
  refine ⟨?_, by decide, by decide, by decide, ?_⟩
  · intro y
    exact ⟨cutYears_eq_03 y, cutYears_eq_35 y, cutYears_eq_510 y,
      cutYears_eq_1030 y, cutYears_eq_30plus y, cutYears_eq_none y⟩
  · intro today st hwf
    exact bucketGroups_snd_sum today st hwf

/-- Witness for the amended C1 at a concrete two-row table. -/
theorem c1_maturity_buckets_amended_witness :
    ((bucketGroups 0 tblFarMaturity).map Prod.snd).sum
      = (tblFarMaturity.rows.map (fun r =>
          if (bucketCell (yearsFrom 0 (toDateCell (cellAt tblFarMaturity.cols r "Maturity")))).isNa
          then 0 else (mvOf tblFarMaturity r).getD 0)).sum :=
  c1_maturity_buckets_amended.2.2.2.2 0 tblFarMaturity (by decide)

/-- C2 counterexample: `maturity_buckets` mutates the engine's own copy
beyond the Composite Rating column — it appends the three derived
columns "Maturity Date", "Years to Maturity" and "Maturity Bucket"
without ever writing a Composite Rating column. -/
theorem c2_counterexample :
    (maturity_buckets 0 tblFarMaturity).2 ≠ tblFarMaturity ∧
    "Composite Rating" ∉ (maturity_buckets 0 tblFarMaturity).2.cols ∧
    (maturity_buckets 0 tblFarMaturity).2.cols
      = tblFarMaturity.cols ++ ["Maturity Date", "Years to Maturity", "Maturity Bucket"] :=
  ⟨by decide, by decide, by decide⟩

/-- C2 (amended): the engine owns a private copy (value semantics in
this embedding; the source takes `df.copy()`), and the only columns any
query method ever writes on that copy are "Composite Rating" (by
`combined_rating` / `credit_distribution`) and the three derived
columns "Maturity Date", "Years to Maturity", "Maturity Bucket" (by
`maturity_buckets`); every other column, the row count, the portfolio
name and the resolved role columns are unchanged by every query method
(all remaining methods perform no write at all). -/
theorem c2_engine_mutation_amended :
    ∀ (st : Analyzer) (today : ℤ), wf st →
      ((combined_rating st).2.name = st.name ∧
       (combined_rating st).2.ratingCols = st.ratingCols ∧
       (combined_rating st).2.sectorCol = st.sectorCol ∧
       (combined_rating st).2.issuerCol = st.issuerCol ∧
       (combined_rating st).2.currencyCol = st.currencyCol ∧
       (combined_rating st).2.rows.length = st.rows.length ∧
       (∀ d, d ≠ "Composite Rating" →
         colCellsOf (combined_rating st).2 d = colCellsOf st d)) ∧
      ((credit_distribution st).2 = (combined_rating st).2) ∧
      ((maturity_buckets today st).2.name = st.name ∧
       (maturity_buckets today st).2.ratingCols = st.ratingCols ∧
       (maturity_buckets today st).2.sectorCol = st.sectorCol ∧
       (maturity_buckets today st).2.issuerCol = st.issuerCol ∧
       (maturity_buckets today st).2.currencyCol = st.currencyCol ∧
       (maturity_buckets today st).2.rows.length = st.rows.length ∧
       (∀ d, d ∉ (["Maturity Date", "Years to Maturity", "Maturity Bucket"] : List String) →
         colCellsOf (maturity_buckets today st).2 d = colCellsOf st d)) := by
  intro st today hwf
  have hmb : (maturity_buckets today st).2
      = if "Maturity" ∈ st.cols then bucketState today st else st := by
    unfold maturity_buckets
    by_cases hmat : "Maturity" ∈ st.cols
    · rw [if_pos hmat, if_pos hmat]
    · rw [if_neg hmat, if_neg hmat]
  have hc := combined_rating_meta st
  refine ⟨⟨hc.1, hc.2.1, hc.2.2.1, hc.2.2.2.1, hc.2.2.2.2,
    combined_rating_rows_length st,
    fun d hd => combined_rating_frame st hwf d hd⟩,
    credit_distribution_snd st, ?_⟩
  rw [hmb]
  by_cases hmat : "Maturity" ∈ st.cols
  · rw [if_pos hmat]
    have hm := bucketState_meta today st
    refine ⟨hm.1, hm.2.1, hm.2.2.1, hm.2.2.2.1, hm.2.2.2.2,
      bucketState_rows_length today st, ?_⟩
    intro d hd
    have hd1 : d ≠ "Maturity Date" := fun he => hd (by rw [he]; decide)
    have hd2 : d ≠ "Years to Maturity" := fun he => hd (by rw [he]; decide)
    have hd3 : d ≠ "Maturity Bucket" := fun he => hd (by rw [he]; decide)
    exact bucketState_frame today st hwf d hd3 hd2 hd1
  · rw [if_neg hmat]
    exact ⟨rfl, rfl, rfl, rfl, rfl, rfl, fun d hd => rfl⟩

/-- Witness for the amended C2: the Market Value column survives both
mutating methods on a concrete table. -/
theorem c2_engine_mutation_amended_witness :
    colCellsOf (combined_rating tblFarMaturity).2 "Market Value"
        = colCellsOf tblFarMaturity "Market Value" ∧
    colCellsOf (maturity_buckets 0 tblFarMaturity).2 "Market Value"
        = colCellsOf tblFarMaturity "Market Value" := by
  have h := c2_engine_mutation_amended tblFarMaturity 0 (by decide)
  exact ⟨h.1.2.2.2.2.2.2 "Market Value" (by decide),
    h.2.2.2.2.2.2.2.2 "Market Value" (by decide)⟩

/-- C4 counterexample: grouping drops rows whose key is missing
(`groupby` default `dropna=True`): with one rated row (A, mv 100) and
one unrated row (mv 50), the credit distribution has no group for the
missing key and awards 100% to "A" — the missing row is not its own
group and is even excluded from the denominator. -/
theorem c4_counterexample :
    (credit_distribution tblHalfRated).1
      = Except.ok ⟨none, [(Cell.str "A", 100)]⟩ ∧
    Cell.na ∉ ([(Cell.str "A", (100 : ℚ))].map Prod.fst) ∧
    ((100 : ℚ) ≠ 100 * 100 / 150) :=
  ⟨by decide, by decide, by decide⟩

/-- C4 (amended): in every categorical distribution method, rows whose
grouping-key value is missing are dropped: the missing value never
appears as a group, and the grand total behind the percentages is the
market value of the rows with a non-missing key only. -/
theorem c4_missing_key_dropped_amended :
    (∀ (st : Analyzer) (c : String),
      Cell.na ∉ (pctByKeyAsc st c).map Prod.fst ∧
      Cell.na ∉ (pctByValDesc st c).map Prod.fst ∧
      ((groupSums st c).map Prod.snd).sum
        = mvSum st (st.rows.filter (fun r => !(cellAt st.cols r c).isNa))) ∧
    (∀ (st : Analyzer) (s : Ser), sector_exposure st = Except.ok s →
      Cell.na ∉ s.entries.map Prod.fst) ∧
    (∀ (st : Analyzer) (s : Ser), currency_exposure st = Except.ok s →
      Cell.na ∉ s.entries.map Prod.fst) ∧
    (∀ (st : Analyzer) (s : Ser), (credit_distribution st).1 = Except.ok s →
      Cell.na ∉ s.entries.map Prod.fst) ∧
    (∀ (st : Analyzer) (l : List (String × List (Cell × ℚ))) (c : String)
        (d : List (Cell × ℚ)), rating_distributions st = Except.ok l →
      (c, d) ∈ l → Cell.na ∉ d.map Prod.fst) ∧
    (∀ (st : Analyzer) (topN : ℕ) (l : List (String × List (Cell × ℚ))) (c : String)
        (d : List (Cell × ℚ)), categorical_breakdowns st topN = Except.ok l →
      (c, d) ∈ l → Cell.na ∉ d.map Prod.fst) := by
  refine ⟨fun st c => ⟨na_not_mem_pctByKeyAsc st c, na_not_mem_pctByValDesc st c,
    groupSums_snd_sum st c⟩, ?_, ?_, ?_, ?_, ?_⟩
  · intro st s hok
    unfold sector_exposure at hok
    cases hc : st.sectorCol with
    | some c =>
      rw [hc] at hok
      simp only [] at hok
      by_cases hmv : "Market Value" ∈ st.cols
      · rw [if_pos hmv] at hok
        have hs : s = ⟨none, pctByValDesc st c⟩ := by cases hok; rfl
        rw [hs]
        exact na_not_mem_pctByValDesc st c
      · rw [if_neg hmv] at hok
        exact absurd hok (by simp)
    | none =>
      rw [hc] at hok
      have hs : s = ⟨none, []⟩ := by cases hok; rfl
      rw [hs]
      simp
  · intro st s hok
    unfold currency_exposure at hok
    cases hc : st.currencyCol with
    | some c =>
      rw [hc] at hok
      simp only [] at hok
      by_cases hmv : "Market Value" ∈ st.cols
      · rw [if_pos hmv] at hok
        have hs : s = ⟨none, pctByValDesc st c⟩ := by cases hok; rfl
        rw [hs]
        exact na_not_mem_pctByValDesc st c
      · rw [if_neg hmv] at hok
        exact absurd hok (by simp)
    | none =>
      rw [hc] at hok
      have hs : s = ⟨some "No Currency Column Found", []⟩ := by cases hok; rfl
      rw [hs]
      simp
  · intro st s hok
    unfold credit_distribution at hok
    by_cases hnil : st.ratingCols = []
    · rw [combined_rating_eq_nil st hnil] at hok
      have hs : s = ⟨none, []⟩ := by cases hok; rfl
      rw [hs]
      simp
    · rw [combined_rating_eq_cons st hnil] at hok
      simp only [] at hok
      by_cases hmv : "Market Value"
          ∈ (setCol st "Composite Rating" (st.rows.map (pick_rating st))).cols
      · rw [if_pos hmv] at hok
        have hs : s = ⟨none, pctByKeyAsc
            (setCol st "Composite Rating" (st.rows.map (pick_rating st)))
            "Composite Rating"⟩ := by cases hok; rfl
        rw [hs]
        exact na_not_mem_pctByKeyAsc _ _
      · rw [if_neg hmv] at hok
        exact absurd hok (by simp)
  · intro st l c d hok hmem
    unfold rating_distributions at hok
    by_cases hnil : st.ratingCols = []
    · rw [if_pos hnil] at hok
      have hl : l = [] := by cases hok; rfl
      subst hl
      exact absurd hmem (List.not_mem_nil _)
    · rw [if_neg hnil] at hok
      by_cases hmv : "Market Value" ∈ st.cols
      · rw [if_pos hmv] at hok
        have hl : l = st.ratingCols.map (fun c => (c, pctByKeyAsc st c)) := by
          cases hok; rfl
        subst hl
        rcases List.mem_map.mp hmem with ⟨c2, _, he⟩
        have hd : d = pctByKeyAsc st c2 := congrArg Prod.snd he.symm
        rw [hd]
        exact na_not_mem_pctByKeyAsc st c2
      · rw [if_neg hmv] at hok
        exact absurd hok (by simp)
  · intro st topN l c d hok hmem
    unfold categorical_breakdowns at hok
    by_cases hcs : (st.cols.filter (isObjectCol st)).filter
        (fun c => !(c == "Issuer Name" || c == "Description")) = []
    · rw [if_pos hcs] at hok
      have hl : l = [] := by cases hok; rfl
      subst hl
      exact absurd hmem (List.not_mem_nil _)
    · rw [if_neg hcs] at hok
      by_cases hmv : "Market Value" ∈ st.cols
      · rw [if_pos hmv] at hok
        have hl : l = ((st.cols.filter (isObjectCol st)).filter
            (fun c => !(c == "Issuer Name" || c == "Description"))).map
              (fun c => (c, (pctByValDesc st c).take topN)) := by
          cases hok; rfl
        subst hl
        rcases List.mem_map.mp hmem with ⟨c2, _, he⟩
        have hd : d = (pctByValDesc st c2).take topN := congrArg Prod.snd he.symm
        rw [hd]
        intro hna
        rcases List.mem_map.mp hna with ⟨g, hg, hfst⟩
        have hg2 : g ∈ pctByValDesc st c2 := List.mem_of_mem_take hg
        exact na_not_mem_pctByValDesc st c2 (hfst ▸ List.mem_map_of_mem _ hg2)
      · rw [if_neg hmv] at hok
        exact absurd hok (by simp)

/-- Witness for the amended C4: the sector distribution of a concrete
table has no missing-key group. -/
theorem c4_missing_key_dropped_amended_witness :
    Cell.na ∉ (Ser.mk none [(Cell.str "Fin", (75 : ℚ)),
      (Cell.str "Tech", 25)]).entries.map Prod.fst :=
  c4_missing_key_dropped_amended.2.1 tblRich
    ⟨none, [(Cell.str "Fin", 75), (Cell.str "Tech", 25)]⟩ (by decide)

theorem credit_distribution_traced_eq (st : Analyzer) (k : ℕ) :
    credit_distribution_traced st k
      = ((credit_distribution st).1, (credit_distribution st).2,
         if st.ratingCols = [] then k else k + 1) := by
  unfold credit_distribution_traced
  rcases h : credit_distribution st with ⟨r, st1⟩
  rfl

theorem credit_distribution_of_some (st : Analyzer) (c : String) (s2 : Analyzer)
    (h : combined_rating st = (some c, s2)) :
    credit_distribution st
      = (if "Market Value" ∈ s2.cols then Except.ok ⟨none, pctByKeyAsc s2 c⟩
         else Except.error "KeyError: Market Value", s2) := by
  unfold credit_distribution
  rw [h]

theorem credit_distribution_stable (st : Analyzer) (hwf : wf st) :
    credit_distribution (credit_distribution st).2
      = ((credit_distribution st).1, (credit_distribution st).2) := by
  by_cases hnil : st.ratingCols = []
  · have h1 : credit_distribution st = (Except.ok ⟨none, []⟩, st) := by
      unfold credit_distribution
      rw [combined_rating_eq_nil st hnil]
    rw [h1]
    exact h1
  · have hsnd : (credit_distribution st).2
        = setCol st "Composite Rating" (st.rows.map (pick_rating st)) := by
      rw [credit_distribution_snd, combined_rating_snd_eq st hnil]
    have hne1 : (credit_distribution st).2.ratingCols ≠ [] := by
      rw [hsnd, setCol_ratingCols]
      exact hnil
    have hcr1 : combined_rating st
        = (some "Composite Rating", (credit_distribution st).2) := by
      rw [combined_rating_eq_cons st hnil, hsnd]
    have hidem : (combined_rating (credit_distribution st).2).2
        = (credit_distribution st).2 := by
      rw [credit_distribution_snd]
      exact combined_rating_idem st hwf
    have hinner : setCol (credit_distribution st).2 "Composite Rating"
        ((credit_distribution st).2.rows.map (pick_rating (credit_distribution st).2))
        = (credit_distribution st).2 := by
      have h2 := hidem
      rw [combined_rating_eq_cons _ hne1] at h2
      exact h2
    have hcr2 : combined_rating (credit_distribution st).2
        = (some "Composite Rating", (credit_distribution st).2) := by
      rw [combined_rating_eq_cons _ hne1, hinner]
    have he1 := credit_distribution_of_some st "Composite Rating"
      (credit_distribution st).2 hcr1
    have he2 := credit_distribution_of_some (credit_distribution st).2
      "Composite Rating" (credit_distribution st).2 hcr2
    rw [he2]
    have hfst : (credit_distribution st).1
        = if "Market Value" ∈ (credit_distribution st).2.cols
          then Except.ok ⟨none, pctByKeyAsc (credit_distribution st).2 "Composite Rating"⟩
          else Except.error "KeyError: Market Value" :=
      congrArg Prod.fst he1
    rw [hfst]

/-- C5 counterexample: the composite rating pass is executed on every
call (there is no cache guard in the source), so two calls compute it
twice, not once, even though they return identical output. -/
theorem c5_counterexample :
    (credit_distribution_traced
      (credit_distribution_traced tblHalfRated 0).2.1
      (credit_distribution_traced tblHalfRated 0).2.2).2.2 = 2 ∧
    (2 : ℕ) ≠ 1 ∧
    (credit_distribution_traced
      (credit_distribution_traced tblHalfRated 0).2.1
      (credit_distribution_traced tblHalfRated 0).2.2).1
      = (credit_distribution_traced tblHalfRated 0).1 :=
  ⟨by decide, by decide, by decide⟩

/-- C5 (amended): calling `credit_distribution` twice returns identical
output and leaves the dataset unchanged between the calls (the second
write stores the same column), but the Composite Rating column is
recomputed on each call — the pass runs twice over two calls whenever
rating columns exist, never once. -/
theorem c5_idempotent_but_recomputed_amended :
    ∀ (st : Analyzer) (k : ℕ), wf st →
      (credit_distribution_traced (credit_distribution_traced st k).2.1
        (credit_distribution_traced st k).2.2).1
        = (credit_distribution_traced st k).1 ∧
      (credit_distribution_traced (credit_distribution_traced st k).2.1
        (credit_distribution_traced st k).2.2).2.1
        = (credit_distribution_traced st k).2.1 ∧
      (st.ratingCols = [] →
        (credit_distribution_traced (credit_distribution_traced st k).2.1
          (credit_distribution_traced st k).2.2).2.2 = k) ∧
      (st.ratingCols ≠ [] →
        (credit_distribution_traced (credit_distribution_traced st k).2.1
          (credit_distribution_traced st k).2.2).2.2 = k + 2) := by
  intro st k hwf
  have h1 := credit_distribution_traced_eq st k
  have hstable := credit_distribution_stable st hwf
  have hrc2 : (credit_distribution st).2.ratingCols = st.ratingCols := by
    rw [credit_distribution_snd]
    exact (combined_rating_meta st).2.1
  have h2 : credit_distribution_traced (credit_distribution_traced st k).2.1
      (credit_distribution_traced st k).2.2
      = ((credit_distribution st).1, (credit_distribution st).2,
         if st.ratingCols = []
         then (if st.ratingCols = [] then k else k + 1)
         else (if st.ratingCols = [] then k else k + 1) + 1) := by
    rw [h1]
    show credit_distribution_traced (credit_distribution st).2
        (if st.ratingCols = [] then k else k + 1) = _
    rw [credit_distribution_traced_eq, hstable, hrc2]
  refine ⟨by rw [h2, h1], by rw [h2, h1], ?_, ?_⟩
  · intro hnil
    rw [h2]
    simp [hnil]
  · intro hne
    rw [h2]
    simp [hne]

/-- Witness for the amended C5 on a concrete table with one rating
column: the second call changes nothing and the pass count reaches 2. -/
theorem c5_idempotent_but_recomputed_amended_witness :
    (credit_distribution_traced (credit_distribution_traced tblHalfRated 0).2.1
      (credit_distribution_traced tblHalfRated 0).2.2).2.1
      = (credit_distribution_traced tblHalfRated 0).2.1 ∧
    (credit_distribution_traced (credit_distribution_traced tblHalfRated 0).2.1
      (credit_distribution_traced tblHalfRated 0).2.2).2.2 = 0 + 2 := by
  have h := c5_idempotent_but_recomputed_amended tblHalfRated 0 (by decide)
  exact ⟨h.2.1, h.2.2.2 (by decide)⟩

theorem Cell.isNa_eq_false (x : Cell) (h : x ≠ Cell.na) : x.isNa = false := by
  cases x with
  | na => exact absurd rfl h
  | str s => rfl
  | num q => rfl
  | date d => rfl

theorem combined_rating_pop (st : Analyzer) (hwf : wf st) (hne : st.ratingCols ≠ [])
    (hpick : ∀ r ∈ st.rows, pick_rating st r ≠ Cell.na) :
    ∀ r1 ∈ (combined_rating st).2.rows,
      (cellAt (combined_rating st).2.cols r1 "Composite Rating").isNa = false := by
  rw [combined_rating_snd_eq st hne]
  rcases setCol_map_pointwise st "Composite Rating" (pick_rating st) hwf
    with ⟨u, hrows, hpt⟩
  rw [hrows]
  intro r1 hr1
  rcases List.mem_map.mp hr1 with ⟨r, hr, he⟩
  rw [← he, (hpt r hr).1]
  exact Cell.isNa_eq_false _ (hpick r hr)

/-- C6 counterexample: `categorical_breakdowns` truncates each
distribution to its `top_n` first entries, so with eleven fully
populated distinct keys of equal weight the returned percentages sum to
1000/11, not 100, although the grouping key is fully populated and the
total market value is nonzero. -/
theorem c6_counterexample :
    totalMV tblElevenSectors = 11 ∧
    tblElevenSectors.rows.all
      (fun r => !(cellAt tblElevenSectors.cols r "Sector").isNa) = true ∧
    categorical_breakdowns tblElevenSectors 10
      = Except.ok [("Sector",
          [(Cell.str "0", 100/11), (Cell.str "1", 100/11), (Cell.str "10", 100/11),
           (Cell.str "2", 100/11), (Cell.str "3", 100/11), (Cell.str "4", 100/11),
           (Cell.str "5", 100/11), (Cell.str "6", 100/11), (Cell.str "7", 100/11),
           (Cell.str "8", 100/11)])] ∧
    (([(Cell.str "0", (100 : ℚ)/11), (Cell.str "1", 100/11), (Cell.str "10", 100/11),
       (Cell.str "2", 100/11), (Cell.str "3", 100/11), (Cell.str "4", 100/11),
       (Cell.str "5", 100/11), (Cell.str "6", 100/11), (Cell.str "7", 100/11),
       (Cell.str "8", 100/11)].map Prod.snd).sum ≠ 100) :=
  ⟨by decide, by decide, by decide, by decide⟩

/-- C6 (amended): for credit, per-agency rating, sector, currency and
maturity distributions, the returned percentages sum to exactly 100
whenever the grouping key is fully populated and the total market value
is nonzero; for `categorical_breakdowns` the same holds provided the
column has at most `top_n` distinct values (its output is truncated to
the `top_n` largest entries). -/
theorem c6_percentages_sum_100_amended :
    (∀ st : Analyzer, wf st → "Market Value" ∈ st.cols → st.ratingCols ≠ [] →
      (∀ r ∈ st.rows, pick_rating st r ≠ Cell.na) → totalMV st ≠ 0 →
      ∀ s : Ser, (credit_distribution st).1 = Except.ok s →
        (s.entries.map Prod.snd).sum = 100) ∧
    (∀ (st : Analyzer) (c : String) (l : List (String × List (Cell × ℚ)))
        (d : List (Cell × ℚ)), rating_distributions st = Except.ok l → (c, d) ∈ l →
      (∀ r ∈ st.rows, (cellAt st.cols r c).isNa = false) → totalMV st ≠ 0 →
      (d.map Prod.snd).sum = 100) ∧
    (∀ (st : Analyzer) (c : String) (s : Ser), st.sectorCol = some c →
      sector_exposure st = Except.ok s →
      (∀ r ∈ st.rows, (cellAt st.cols r c).isNa = false) → totalMV st ≠ 0 →
      (s.entries.map Prod.snd).sum = 100) ∧
    (∀ (st : Analyzer) (c : String) (s : Ser), st.currencyCol = some c →
      currency_exposure st = Except.ok s →
      (∀ r ∈ st.rows, (cellAt st.cols r c).isNa = false) → totalMV st ≠ 0 →
      (s.entries.map Prod.snd).sum = 100) ∧
    (∀ (st : Analyzer) (topN : ℕ) (c : String) (l : List (String × List (Cell × ℚ)))
        (d : List (Cell × ℚ)), categorical_breakdowns st topN = Except.ok l →
      (c, d) ∈ l → (∀ r ∈ st.rows, (cellAt st.cols r c).isNa = false) →
      totalMV st ≠ 0 → (groupKeys st c).length ≤ topN →
      (d.map Prod.snd).sum = 100) ∧
    (∀ (today : ℤ) (st : Analyzer) (s : Ser), wf st → "Maturity" ∈ st.cols →
      (maturity_buckets today st).1 = Except.ok s →
      (∀ r ∈ st.rows,
        bucketCell (yearsFrom today (toDateCell (cellAt st.cols r "Maturity")))
          ≠ Cell.na) →
      totalMV st ≠ 0 → (s.entries.map Prod.snd).sum = 100) := by
  refine ⟨?_, ?_, ?_, ?_, ?_, ?_⟩
  · intro st hwf hmv hne hpick ht s hok
    have hsnd := combined_rating_snd_eq st hne
    have hcr : combined_rating st
        = (some "Composite Rating", (combined_rating st).2) := by
      conv_lhs => rw [combined_rating_eq_cons st hne]
      rw [hsnd]
    have he := credit_distribution_of_some st "Composite Rating"
      (combined_rating st).2 hcr
    have hfst := congrArg Prod.fst he
    rw [hfst] at hok
    rw [if_pos (combined_rating_MV_mem st hmv)] at hok
    have hs : s = ⟨none, pctByKeyAsc (combined_rating st).2 "Composite Rating"⟩ := by
      cases hok
      rfl
    rw [hs]
    apply pctByKeyAsc_snd_sum
    · exact combined_rating_pop st hwf hne hpick
    · rw [combined_rating_totalMV st hwf]
      exact ht
  · intro st c l d hok hmem hpop ht
    unfold rating_distributions at hok
    by_cases hnil : st.ratingCols = []
    · rw [if_pos hnil] at hok
      have hl : l = [] := by cases hok; rfl
      subst hl
      exact absurd hmem (List.not_mem_nil _)
    · rw [if_neg hnil] at hok
      by_cases hmv : "Market Value" ∈ st.cols
      · rw [if_pos hmv] at hok
        have hl : l = st.ratingCols.map (fun c => (c, pctByKeyAsc st c)) := by
          cases hok; rfl
        subst hl
        rcases List.mem_map.mp hmem with ⟨c2, _, he⟩
        cases he
        exact pctByKeyAsc_snd_sum st c hpop ht
      · rw [if_neg hmv] at hok
        exact absurd hok (by simp)
  · intro st c s hc hok hpop ht
    unfold sector_exposure at hok
    rw [hc] at hok
    simp only [] at hok
    by_cases hmv : "Market Value" ∈ st.cols
    · rw [if_pos hmv] at hok
      have hs : s = ⟨none, pctByValDesc st c⟩ := by cases hok; rfl
      rw [hs]
      exact pctByValDesc_snd_sum st c hpop ht
    · rw [if_neg hmv] at hok
      exact absurd hok (by simp)
  · intro st c s hc hok hpop ht
    unfold currency_exposure at hok
    rw [hc] at hok
    simp only [] at hok
    by_cases hmv : "Market Value" ∈ st.cols
    · rw [if_pos hmv] at hok
      have hs : s = ⟨none, pctByValDesc st c⟩ := by cases hok; rfl
      rw [hs]
      exact pctByValDesc_snd_sum st c hpop ht
    · rw [if_neg hmv] at hok
      exact absurd hok (by simp)
  · intro st topN c l d hok hmem hpop ht hlen
    unfold categorical_breakdowns at hok
    by_cases hcs : (st.cols.filter (isObjectCol st)).filter
        (fun c => !(c == "Issuer Name" || c == "Description")) = []
    · rw [if_pos hcs] at hok
      have hl : l = [] := by cases hok; rfl
      subst hl
      exact absurd hmem (List.not_mem_nil _)
    · rw [if_neg hcs] at hok
      by_cases hmv : "Market Value" ∈ st.cols
      · rw [if_pos hmv] at hok
        have hl : l = ((st.cols.filter (isObjectCol st)).filter
            (fun c => !(c == "Issuer Name" || c == "Description"))).map
              (fun c => (c, (pctByValDesc st c).take topN)) := by
          cases hok; rfl
        subst hl
        rcases List.mem_map.mp hmem with ⟨c2, _, he⟩
        cases he
        have hfull : (pctByValDesc st c).take topN = pctByValDesc st c := by
          apply List.take_of_length_le
          rw [pctByValDesc_length]
          exact hlen
        rw [hfull]
        exact pctByValDesc_snd_sum st c hpop ht
      · rw [if_neg hmv] at hok
        exact absurd hok (by simp)
  · intro today st s hwf hmat hok hpop ht
    unfold maturity_buckets at hok
    rw [if_pos hmat] at hok
    simp only [] at hok
    by_cases hmv : "Market Value" ∈ (bucketState today st).cols
    · rw [if_pos hmv] at hok
      have hs : s = ⟨none, pctOf (bucketGroups today st)⟩ := by cases hok; rfl
      rw [hs]
      apply pctOf_snd_sum
      rw [bucketGroups_snd_sum today st hwf]
      have hcongr : st.rows.map (fun r =>
          if (bucketCell (yearsFrom today (toDateCell (cellAt st.cols r "Maturity")))).isNa
          then 0 else (mvOf st r).getD 0)
          = st.rows.map (fun r => (mvOf st r).getD 0) := by
        apply List.map_congr_left
        intro r hr
        rw [Cell.isNa_eq_false _ (hpop r hr)]
        simp
      rw [hcongr, ← mvSum_eq_map_sum]
      exact ht
    · rw [if_neg hmv] at hok
      exact absurd hok (by simp)

/-- Witness for the amended C6: the sector percentages of a concrete
fully populated table sum to 100. -/
theorem c6_percentages_sum_100_amended_witness :
    (((Ser.mk none [(Cell.str "Fin", (75 : ℚ)), (Cell.str "Tech", 25)]).entries.map
      Prod.snd).sum = 100) :=
  c6_percentages_sum_100_amended.2.2.1 tblRich "Sector"
    ⟨none, [(Cell.str "Fin", 75), (Cell.str "Tech", 25)]⟩
    (by decide) (by decide) (by decide) (by decide)

end PortfolioSpec
